import Mathlib

/-!
Verification of the windkraft_gpu culling/LOD core against its specification.

The Python sources embedded here (shallowly) are:
* germany3d/windturbine/quadtree.py   (BoundingBox, QuadtreeNode, QuadtreeManager)
* germany3d/windturbine/turbine.py    (WindTurbine)
* germany3d/windturbine/manager.py    (WindTurbineManager)
* germany3d/windturbine/lod.py        (LODLevel, LODManager)
* germany3d/windturbine/lod_aggressive.py (AggressiveLODLevel, AggressiveLODManager)
* germany3d/windturbine/frustum_culling.py (Plane, ViewFrustum)

Python floats are modelled as rationals (ℚ): every comparison and the midpoint
computation of the quadtree are exact order/field operations, which ℚ models
exactly; float rounding is not modelled.  Mutating methods are modelled as
functions returning the updated value.
-/

namespace Windkraft

/-! ## quadtree.py: BoundingBox -/

/-- `BoundingBox` (quadtree.py lines 35-41).  Fields in source order.  The
derived `width`/`height` attributes (`x_max - x_min`, `z_max - z_min`) are not
stored since they are definable from the four fields and unused by any claim. -/
structure BoundingBox where
  x_min : ℚ
  x_max : ℚ
  z_min : ℚ
  z_max : ℚ
deriving DecidableEq, Repr

/-- `BoundingBox.contains_point` (quadtree.py lines 43-46):
`x_min <= x <= x_max and z_min <= z <= z_max`. -/
def BoundingBox.contains_point (b : BoundingBox) (x z : ℚ) : Bool :=
  decide (b.x_min ≤ x) && decide (x ≤ b.x_max) &&
  decide (b.z_min ≤ z) && decide (z ≤ b.z_max)

/-- `BoundingBox.intersects_box` (quadtree.py lines 48-53). -/
def BoundingBox.intersects_box (b o : BoundingBox) : Bool :=
  decide (b.x_min ≤ o.x_max) && decide (o.x_min ≤ b.x_max) &&
  decide (b.z_min ≤ o.z_max) && decide (o.z_min ≤ b.z_max)

/-- `BoundingBox.get_center` (quadtree.py lines 55-60). -/
def BoundingBox.get_center (b : BoundingBox) : ℚ × ℚ :=
  ((b.x_min + b.x_max) / 2, (b.z_min + b.z_max) / 2)

/-- The NW quadrant box built in `QuadtreeNode.split` (quadtree.py line 119). -/
def BoundingBox.nwQuad (b : BoundingBox) : BoundingBox :=
  ⟨b.x_min, b.get_center.1, b.z_min, b.get_center.2⟩

/-- The NE quadrant box built in `QuadtreeNode.split` (quadtree.py line 121). -/
def BoundingBox.neQuad (b : BoundingBox) : BoundingBox :=
  ⟨b.get_center.1, b.x_max, b.z_min, b.get_center.2⟩

/-- The SW quadrant box built in `QuadtreeNode.split` (quadtree.py line 123). -/
def BoundingBox.swQuad (b : BoundingBox) : BoundingBox :=
  ⟨b.x_min, b.get_center.1, b.get_center.2, b.z_max⟩

/-- The SE quadrant box built in `QuadtreeNode.split` (quadtree.py line 125). -/
def BoundingBox.seQuad (b : BoundingBox) : BoundingBox :=
  ⟨b.get_center.1, b.x_max, b.get_center.2, b.z_max⟩

/-! ## turbine.py: WindTurbine -/

/-- `WindTurbine` (turbine.py lines 188-209).  `year` and `bl_height` are set
to their defaults by `__init__` and overwritten later by the data loader.
`bl_name` is modelled as `Option String`: `__init__` never creates that
attribute, so `getattr(t, 'bl_name', None)` yields `None` (here `none`) until a
loader assigns it.  Rendering-only fields (`current_lod_level`,
`distance_to_camera`, `render_skip`) are not modelled. -/
structure WindTurbine where
  x : ℚ
  z : ℚ
  height : ℚ
  rotor_radius : ℚ
  power_kw : ℚ
  year : Int
  bl_height : ℚ
  blade_angle : ℚ
  rotation_speed : ℚ
  bl_name : Option String
deriving DecidableEq, Repr

/-- `WindTurbine.__init__` (turbine.py lines 188-209): stores the arguments and
the defaults `year = 2000`, `bl_height = 0.18`, `blade_angle = 0.0`,
`rotation_speed = 90.0`; no `bl_name` attribute is created. -/
def WindTurbine.init (x z height rotor_radius power_kw : ℚ) : WindTurbine :=
  ⟨x, z, height, rotor_radius, power_kw, 2000, 18/100, 0, 90, none⟩

/-! ## quadtree.py: QuadtreeNode

A Python `QuadtreeNode` stores both a turbine list and an optional child list,
but in every state the class can reach, a node with children has an empty
turbine list (`split` clears `self.turbines` and `insert` never appends to a
non-leaf), so the node is either a leaf holding turbines or an internal node
holding exactly the four children NW, NE, SW, SE.  The inductive below encodes
exactly those two states; both carry `bounds`, `max_turbines` and `depth`. -/

inductive QuadtreeNode where
  | leaf (bounds : BoundingBox) (max_turbines : Nat) (depth : Nat)
      (turbines : List WindTurbine)
  | inner (bounds : BoundingBox) (max_turbines : Nat) (depth : Nat)
      (nw ne sw se : QuadtreeNode)
deriving DecidableEq, Repr

/-- `self.bounds`. -/
def QuadtreeNode.bounds : QuadtreeNode → BoundingBox
  | .leaf b _ _ _ => b
  | .inner b _ _ _ _ _ _ => b

/-- `self.max_turbines`. -/
def QuadtreeNode.maxTurbines : QuadtreeNode → Nat
  | .leaf _ m _ _ => m
  | .inner _ m _ _ _ _ _ => m

/-- `self.depth`. -/
def QuadtreeNode.nodeDepth : QuadtreeNode → Nat
  | .leaf _ _ d _ => d
  | .inner _ _ d _ _ _ _ => d

/-!
`QuadtreeNode.insert` and `QuadtreeNode.split` (quadtree.py lines 105-168) are
mutually recursive: an overflowing leaf splits, and `split` re-inserts the
held turbines into the freshly created children (which may split again one
level deeper).  The recursion terminates in Python because `split` returns
immediately when `self.depth > 10`.  That measure is not structural, so the
Lean embedding threads an explicit `fuel : Nat` that is decremented once per
split level; a split that would need more fuel than supplied leaves the leaf
unchanged.  All quadtree theorems below hold for every fuel value, and the
tree-building entry points pass fuel 12, which the depth cutoff can never
exhaust from a depth-0 root (splits do real work only at depths 0..10).
-/

/-- The body of `QuadtreeNode.insert` (quadtree.py lines 145-168),
parameterised by the `split` routine an overflowing leaf calls (insert at
split allowance `fuel` uses split at the same allowance; tying the knot this
way keeps every definition structurally recursive): drop the turbine if it is
outside `self.bounds`; append to a leaf and split on overflow
(`len > max_turbines`); on an internal node, descend into the first child in
NW, NE, SW, SE order whose bounds contain the point (if none does, the
turbine is dropped, matching the fall-through of the Python loop). -/
def QuadtreeNode.insertGiven
    (split : BoundingBox → Nat → Nat → List WindTurbine → QuadtreeNode)
    (n : QuadtreeNode) (t : WindTurbine) : QuadtreeNode :=
  match n with
  | .leaf b m d ts =>
    if b.contains_point t.x t.z then
      let ts' := ts ++ [t]
      if m < ts'.length then split b m d ts'
      else .leaf b m d ts'
    else .leaf b m d ts
  | .inner b m d nw ne sw se =>
    if b.contains_point t.x t.z then
      if nw.bounds.contains_point t.x t.z then
        .inner b m d (QuadtreeNode.insertGiven split nw t) ne sw se
      else if ne.bounds.contains_point t.x t.z then
        .inner b m d nw (QuadtreeNode.insertGiven split ne t) sw se
      else if sw.bounds.contains_point t.x t.z then
        .inner b m d nw ne (QuadtreeNode.insertGiven split sw t) se
      else if se.bounds.contains_point t.x t.z then
        .inner b m d nw ne sw (QuadtreeNode.insertGiven split se t)
      else .inner b m d nw ne sw se
    else .inner b m d nw ne sw se

/-- The redistribution loop of `QuadtreeNode.split` (quadtree.py lines
136-140), parameterised the same way: each held turbine goes to the first
child in NW, NE, SW, SE order whose bounds contain its position (`break`
after the first match); a turbine contained in no child is dropped (the
Python loop has no else branch). -/
def QuadtreeNode.distributeGiven
    (split : BoundingBox → Nat → Nat → List WindTurbine → QuadtreeNode)
    (cs : QuadtreeNode × QuadtreeNode × QuadtreeNode × QuadtreeNode)
    (ts : List WindTurbine) :
    QuadtreeNode × QuadtreeNode × QuadtreeNode × QuadtreeNode :=
  match ts with
  | [] => cs
  | t :: rest =>
    if cs.1.bounds.contains_point t.x t.z then
      QuadtreeNode.distributeGiven split
        (QuadtreeNode.insertGiven split cs.1 t, cs.2.1, cs.2.2.1, cs.2.2.2)
        rest
    else if cs.2.1.bounds.contains_point t.x t.z then
      QuadtreeNode.distributeGiven split
        (cs.1, QuadtreeNode.insertGiven split cs.2.1 t, cs.2.2.1, cs.2.2.2)
        rest
    else if cs.2.2.1.bounds.contains_point t.x t.z then
      QuadtreeNode.distributeGiven split
        (cs.1, cs.2.1, QuadtreeNode.insertGiven split cs.2.2.1 t, cs.2.2.2)
        rest
    else if cs.2.2.2.bounds.contains_point t.x t.z then
      QuadtreeNode.distributeGiven split
        (cs.1, cs.2.1, cs.2.2.1, QuadtreeNode.insertGiven split cs.2.2.2 t)
        rest
    else
      QuadtreeNode.distributeGiven split cs rest

/-- `QuadtreeNode.split` (quadtree.py lines 105-143) applied to a leaf with
bounds `b`, capacity `m`, depth `d` and turbine list `ts`: return unchanged
when `depth > 10`; otherwise create the four quadrant children at
`depth + 1`, redistribute `ts` into them (each redistribution may split a
child one level deeper), and clear the own list (the result is an internal
node, whose embedding carries no turbine list).  The Python recursion
terminates because of the `depth > 10` cutoff; that measure is not
structural, so the embedding recurses on an explicit `fuel` decremented once
per split level, and a split that has run out of fuel leaves the leaf
unchanged.  All quadtree theorems below hold for every fuel value, and the
tree-building entry points pass fuel 12, which the depth cutoff can never
exhaust from a depth-0 root (splits do real work only at depths 0..10). -/
def QuadtreeNode.splitT : Nat → BoundingBox → Nat → Nat →
    List WindTurbine → QuadtreeNode
  | 0, b, m, d, ts => .leaf b m d ts
  | fuel + 1, b, m, d, ts =>
    if 10 < d then .leaf b m d ts
    else
      let cs := QuadtreeNode.distributeGiven (QuadtreeNode.splitT fuel)
        (.leaf b.nwQuad m (d+1) [], .leaf b.neQuad m (d+1) [],
         .leaf b.swQuad m (d+1) [], .leaf b.seQuad m (d+1) []) ts
      .inner b m d cs.1 cs.2.1 cs.2.2.1 cs.2.2.2

/-- `QuadtreeNode.insert` at split allowance `fuel`. -/
def QuadtreeNode.insertT (fuel : Nat) (n : QuadtreeNode) (t : WindTurbine) :
    QuadtreeNode :=
  QuadtreeNode.insertGiven (QuadtreeNode.splitT fuel) n t

/-- `QuadtreeNode.build_from_list` (quadtree.py lines 170-188): reset to an
empty leaf (keeping bounds, capacity, depth) and insert every turbine in
order. -/
def QuadtreeNode.build_from_list (n : QuadtreeNode) (ts : List WindTurbine) :
    QuadtreeNode :=
  ts.foldl (fun acc t => QuadtreeNode.insertT 12 acc t)
    (.leaf n.bounds n.maxTurbines n.nodeDepth [])

/-- `QuadtreeNode.get_visible` (quadtree.py lines 190-223): prune the subtree
when its bounds do not intersect the query box; on a leaf, test each turbine
against the box; on an internal node, concatenate the children's results in
NW, NE, SW, SE order. -/
def QuadtreeNode.get_visible (n : QuadtreeNode) (q : BoundingBox) :
    List WindTurbine :=
  match n with
  | .leaf b _ _ ts =>
    if b.intersects_box q then ts.filter (fun t => q.contains_point t.x t.z)
    else []
  | .inner b _ _ nw ne sw se =>
    if b.intersects_box q then
      nw.get_visible q ++ ne.get_visible q ++ sw.get_visible q ++
        se.get_visible q
    else []

/-- All turbines stored in the subtree, leaf lists concatenated in NW, NE, SW,
SE order (the order `get_visible` traverses). -/
def QuadtreeNode.allTurbines : QuadtreeNode → List WindTurbine
  | .leaf _ _ _ ts => ts
  | .inner _ _ _ nw ne sw se =>
    nw.allTurbines ++ ne.allTurbines ++ sw.allTurbines ++ se.allTurbines

/-- The greatest `depth` field of any node in the subtree (what
`get_stats` reports as `max_depth`, quadtree.py lines 241-268). -/
def QuadtreeNode.maxNodeDepth : QuadtreeNode → Nat
  | .leaf _ _ d _ => d
  | .inner _ _ d nw ne sw se =>
    max (max (max (max d nw.maxNodeDepth) ne.maxNodeDepth) sw.maxNodeDepth)
      se.maxNodeDepth

/-- Structural well-formedness of reachable trees: every leaf holds only
turbines inside its own bounds (insert checks containment before appending),
and the children of an internal node carry exactly the four quadrant boxes of
the parent (they are created that way by `split`). -/
def QuadtreeNode.wf : QuadtreeNode → Prop
  | .leaf b _ _ ts => ∀ t ∈ ts, b.contains_point t.x t.z = true
  | .inner b _ _ nw ne sw se =>
    nw.bounds = b.nwQuad ∧ ne.bounds = b.neQuad ∧ sw.bounds = b.swQuad ∧
    se.bounds = b.seQuad ∧ nw.wf ∧ ne.wf ∧ sw.wf ∧ se.wf

/-- Specification of a well-behaved split routine: on a turbine list that
lies inside the given bounds it produces a well-formed tree over the same
bounds holding exactly the given turbines (as a multiset).  `splitT fuel`
satisfies this for every fuel value. -/
def SplitSpec
    (split : BoundingBox → Nat → Nat → List WindTurbine → QuadtreeNode) :
    Prop :=
  ∀ b m d ts, (∀ t ∈ ts, b.contains_point t.x t.z = true) →
    (split b m d ts).wf ∧ (split b m d ts).allTurbines.Perm ts ∧
    (split b m d ts).bounds = b

/-- Depth specification of a split routine: starting from depth `d` it never
creates a node deeper than `max d 11`. -/
def SplitDepth
    (split : BoundingBox → Nat → Nat → List WindTurbine → QuadtreeNode) :
    Prop :=
  ∀ b m d ts, (split b m d ts).maxNodeDepth ≤ max d 11

/-- The default Germany bounds of `QuadtreeManager.__init__`
(quadtree.py line 302): x in [-1.6, 1.6], z in [-1.9, 1.9]. -/
def germanyBounds : BoundingBox := ⟨-16/10, 16/10, -19/10, 19/10⟩

/-- The root node a fresh `QuadtreeManager` creates (quadtree.py line 305):
the Germany bounds, capacity 8, depth 0, no turbines. -/
def QuadtreeManager.freshRoot : QuadtreeNode := .leaf germanyBounds 8 0 []

/-! ## manager.py: WindTurbineManager

The class body of `WindTurbineManager` defines `update_frustum`,
`_is_visible`, `get_visible_turbines_until_year` and `update_visible_only`
twice each; Python keeps the later definition, so the effective
`_is_visible` is the one at lines 367-391 (with the distance check) and the
effective `get_visible_turbines_until_year` is the legacy linear filter at
lines 393-412 (which does not consult the quadtree).  Those effective
definitions are the ones embedded.  The SoA numpy cache
(`_build_cache_optimized_arrays`) only mirrors the turbine list and is not
read by any embedded query, so it is not modelled. -/

/-- Python truthiness test `bl_name and bl_name != 'Unknown'` applied to
`getattr(t, 'bl_name', None)` (manager.py lines 145-146 and 159-160):
`None` and the empty string are falsy; otherwise the name must differ from
`'Unknown'`. -/
def truthyBL : Option String → Bool
  | none => false
  | some s => if s = "" then false else decide (s ≠ "Unknown")

/-- The `bl_name` filter used by the year queries. -/
def WindTurbine.hasValidBL (t : WindTurbine) : Bool := truthyBL t.bl_name

/-- One step of building `_year_cache` (manager.py lines 89-94): the Python
dict maps year -> list, keys in first-insertion order, each new turbine
appended to its year's group. -/
def cacheInsert (c : List (Int × List WindTurbine)) (y : Int)
    (t : WindTurbine) : List (Int × List WindTurbine) :=
  match c with
  | [] => [(y, [t])]
  | (k, g) :: rest =>
    if k = y then (k, g ++ [t]) :: rest else (k, g) :: cacheInsert rest y t

/-- The `_year_cache` built from a turbine list (manager.py lines 89-94);
every turbine has a `year` attribute (set in `__init__`), so
`getattr(t, 'year', 2000)` is `t.year`. -/
def buildYearCache (ts : List WindTurbine) : List (Int × List WindTurbine) :=
  ts.foldl (fun c t => cacheInsert c t.year t) []

/-- Dict lookup `self._year_cache[year]`. -/
def cacheGet (c : List (Int × List WindTurbine)) (y : Int) :
    List WindTurbine :=
  match c with
  | [] => []
  | (k, g) :: rest => if k = y then g else cacheGet rest y

/-- `sorted(self._year_cache.keys())`.  The cache keys are pairwise distinct
(one group per year), so any ascending sort produces the same key list;
insertion sort is used here. -/
def sortedKeys (c : List (Int × List WindTurbine)) : List Int :=
  List.insertionSort (· ≤ ·) (c.map Prod.fst)

/-- `WindTurbineManager` state (manager.py lines 28-58).  The legacy frustum
dict `_frustum_bounds` is flattened into five fields; `use_quadtree`,
`use_lod` and `use_cache_optimization` default to `True` and nothing in the
embedded flows flips them, so they are treated as always on. -/
structure WindTurbineManager where
  turbines : List WindTurbine
  year_cache : List (Int × List WindTurbine)
  cache_valid : Bool
  frustum_x_min : ℚ
  frustum_x_max : ℚ
  frustum_z_min : ℚ
  frustum_z_max : ℚ
  frustum_distance : ℚ
  quadtree_root : QuadtreeNode
deriving DecidableEq, Repr

/-- `WindTurbineManager.__init__` (manager.py lines 28-58): no turbines,
empty invalid cache, frustum x in [-1.5, 1.5], z in [-1.8, 1.8],
distance 3.0, fresh quadtree over the Germany bounds. -/
def WindTurbineManager.init : WindTurbineManager :=
  ⟨[], [], false, -15/10, 15/10, -18/10, 18/10, 3, QuadtreeManager.freshRoot⟩

/-- `WindTurbineManager.add_turbine` (manager.py lines 60-81): create the
turbine, set `blade_angle = (len(self.turbines) * 37) % 360`, append it and
invalidate the cache; returns the new turbine together with the updated
manager. -/
def WindTurbineManager.add_turbine (mgr : WindTurbineManager)
    (x z height rotor_radius power_kw : ℚ) :
    WindTurbine × WindTurbineManager :=
  let t0 := WindTurbine.init x z height rotor_radius power_kw
  let t := { t0 with blade_angle := ((mgr.turbines.length * 37) % 360 : Nat) }
  (t, { mgr with turbines := mgr.turbines ++ [t], cache_valid := false })

/-- `WindTurbineManager.build_year_cache` (manager.py lines 83-104): rebuild
the year cache and the quadtree from the current turbine list and mark the
cache valid. -/
def WindTurbineManager.build_year_cache (mgr : WindTurbineManager) :
    WindTurbineManager :=
  { mgr with
    year_cache := buildYearCache mgr.turbines,
    quadtree_root := mgr.quadtree_root.build_from_list mgr.turbines,
    cache_valid := true }

/-- The lazy-rebuild step `if not self._cache_valid: self.build_year_cache()`
shared by the year queries (manager.py lines 137-138 and 152-153). -/
def WindTurbineManager.refreshed (mgr : WindTurbineManager) :
    WindTurbineManager :=
  if mgr.cache_valid then mgr else mgr.build_year_cache

/-- `WindTurbineManager.get_turbines_until_year` (manager.py lines 130-148):
lazily rebuild, then walk the sorted cache keys that are `<= max_year` and
collect, per group, the turbines with a truthy `bl_name` different from
`'Unknown'`. -/
def WindTurbineManager.get_turbines_until_year (mgr : WindTurbineManager)
    (max_year : Int) : List WindTurbine :=
  let m := mgr.refreshed
  ((sortedKeys m.year_cache).filter (fun k => decide (k ≤ max_year))).flatMap
    (fun k => (cacheGet m.year_cache k).filter WindTurbine.hasValidBL)

/-- `WindTurbineManager.count_until_year` (manager.py lines 150-162): lazily
rebuild, then count, over all cache keys `<= max_year`, the turbines with a
valid `bl_name`. -/
def WindTurbineManager.count_until_year (mgr : WindTurbineManager)
    (max_year : Int) : Nat :=
  (mgr.refreshed.year_cache.foldl
    (fun acc e =>
      if e.1 ≤ max_year then
        acc + (e.2.filter WindTurbine.hasValidBL).length
      else acc) 0)

/-- The effective `WindTurbineManager._is_visible` (manager.py lines
367-391): AABB check against the legacy frustum bounds, then the distance
check `sqrt(x^2 + z^2) > distance -> not visible`.  The square root is not
rational; since `sqrt(s) > D` (with `s >= 0`) holds exactly when `D < 0` or
`s > D^2`, the check is embedded by that equivalent comparison. -/
def WindTurbineManager.is_visible (mgr : WindTurbineManager) (x z : ℚ) :
    Bool :=
  if x < mgr.frustum_x_min ∨ x > mgr.frustum_x_max then false
  else if z < mgr.frustum_z_min ∨ z > mgr.frustum_z_max then false
  else if mgr.frustum_distance < 0 then false
  else if x ^ 2 + z ^ 2 > mgr.frustum_distance ^ 2 then false
  else true

/-- The effective `WindTurbineManager.get_visible_turbines_until_year`
(manager.py lines 393-412, the later of the two definitions, which Python
keeps): the year query filtered by `_is_visible`. -/
def WindTurbineManager.get_visible_turbines_until_year
    (mgr : WindTurbineManager) (max_year : Int) : List WindTurbine :=
  (mgr.get_turbines_until_year max_year).filter
    (fun t => mgr.is_visible t.x t.z)

/-- A manager whose stored year cache is trustworthy: if the valid flag is
set, the cache is the one `build_year_cache` derives from the current
turbine list.  Every state reached through `add_turbine` /
`build_year_cache` satisfies this (`add_turbine` clears the flag,
`build_year_cache` rebuilds the cache). -/
def WindTurbineManager.CacheConsistent (mgr : WindTurbineManager) : Prop :=
  mgr.cache_valid = true → mgr.year_cache = buildYearCache mgr.turbines

/-! ## lod.py: LODLevel and LODManager -/

/-- `LODLevel` (lod.py lines 17-29). -/
structure LODLevel where
  name : String
  polygon_ratio : ℚ
  distance_threshold : ℚ
deriving DecidableEq, Repr

/-- `LODLevel.__init__` (lod.py lines 20-29): stores the three arguments; it
performs no validation of any kind. -/
def LODLevel.init (name : String) (polygon_ratio distance_threshold : ℚ) :
    LODLevel :=
  ⟨name, polygon_ratio, distance_threshold⟩

/-- `LODManager.DEFAULT_LODS` (lod.py lines 46-50). -/
def LODManager.DEFAULT_LODS : List LODLevel :=
  [⟨"LOD0", 1, 0⟩, ⟨"LOD1", 5/10, 3/10⟩, ⟨"LOD2", 1/10, 8/10⟩]

/-- `LODManager` (lod.py lines 35-59): holds `lod_levels`, sorted ascending
by `distance_threshold` in `__init__`. -/
structure LODManager where
  lod_levels : List LODLevel
deriving DecidableEq, Repr

/-- `LODManager.__init__` (lod.py lines 52-59): take the given levels (or the
default set) and sort them ascending by `distance_threshold`. -/
def LODManager.init (lod_levels : Option (List LODLevel)) : LODManager :=
  ⟨List.insertionSort (fun a b => a.distance_threshold ≤ b.distance_threshold)
    (lod_levels.getD LODManager.DEFAULT_LODS)⟩

/-- First element of `ls` whose `distance_threshold` is `<= d`; scanning `ls`
head first.  Applied to the reversed level list this is exactly the loop
`for lod in reversed(self.lod_levels): if distance >= lod.distance_threshold:
return lod` of lod.py lines 71-74. -/
def findFirstGE (ls : List LODLevel) (d : ℚ) : Option LODLevel :=
  match ls with
  | [] => none
  | l :: rest => if l.distance_threshold ≤ d then some l else findFirstGE rest d

/-- `LODManager.get_lod_for_distance` (lod.py lines 61-77): reverse scan for
the highest level whose threshold is met, else `self.lod_levels[0]` (which
raises on an empty list in Python; the `getD` default stands for that error
state and is never reached for a nonempty configuration). -/
def LODManager.get_lod_for_distance (mgr : LODManager) (d : ℚ) : LODLevel :=
  match findFirstGE mgr.lod_levels.reverse d with
  | some l => l
  | none => mgr.lod_levels.getD 0 ⟨"LOD0", 1, 0⟩

/-! ## lod_aggressive.py: AggressiveLODLevel and AggressiveLODManager -/

/-- `AggressiveLODLevel` (lod_aggressive.py lines 32-56), a dataclass with
defaults `segment_count = 8`, `blade_count = 3` and all flags `False`. -/
structure AggressiveLODLevel where
  name : String
  polygon_ratio : ℚ
  distance_threshold : ℚ
  segment_count : Nat
  blade_count : Nat
  skip_nacelle : Bool
  skip_blades : Bool
  use_billboard : Bool
deriving DecidableEq, Repr

/-- `AggressiveLODLevel.__post_init__` (lod_aggressive.py lines 51-56):
asserts `0 <= polygon_ratio <= 1`, `distance_threshold >= 0`,
`segment_count >= 3` and `0 <= blade_count <= 3`; a failing assert raises, so
construction is modelled as returning `none` in that case (`blade_count` is a
`Nat` here, so its lower bound is automatic). -/
def AggressiveLODLevel.make (name : String)
    (polygon_ratio distance_threshold : ℚ) (segment_count blade_count : Nat)
    (skip_nacelle skip_blades use_billboard : Bool) :
    Option AggressiveLODLevel :=
  if 0 ≤ polygon_ratio ∧ polygon_ratio ≤ 1 ∧ 0 ≤ distance_threshold ∧
      3 ≤ segment_count ∧ blade_count ≤ 3 then
    some ⟨name, polygon_ratio, distance_threshold, segment_count, blade_count,
      skip_nacelle, skip_blades, use_billboard⟩
  else none

/-- `AggressiveLODManager.AGGRESSIVE_LODS` (lod_aggressive.py lines 67-79). -/
def AggressiveLODManager.AGGRESSIVE_LODS : List AggressiveLODLevel :=
  [⟨"LOD0", 1, 0, 8, 3, false, false, false⟩,
   ⟨"LOD1", 6/10, 15/100, 6, 3, false, false, false⟩,
   ⟨"LOD2", 25/100, 35/100, 4, 3, false, false, false⟩,
   ⟨"LOD3", 8/100, 55/100, 4, 1, true, false, false⟩,
   ⟨"LOD4", 2/100, 85/100, 3, 0, true, true, true⟩]

/-- `AggressiveLODManager.STANDARD_LODS` (lod_aggressive.py lines 82-86). -/
def AggressiveLODManager.STANDARD_LODS : List AggressiveLODLevel :=
  [⟨"LOD0", 1, 0, 8, 3, false, false, false⟩,
   ⟨"LOD1", 5/10, 3/10, 8, 3, false, false, false⟩,
   ⟨"LOD2", 1/10, 8/10, 8, 3, false, false, false⟩]

/-- `AggressiveLODManager.EXTREME_LODS` (lod_aggressive.py lines 89-102). -/
def AggressiveLODManager.EXTREME_LODS : List AggressiveLODLevel :=
  [⟨"LOD0", 1, 0, 6, 3, false, false, false⟩,
   ⟨"LOD1", 4/10, 1/10, 4, 2, false, false, false⟩,
   ⟨"LOD2", 15/100, 25/100, 4, 1, true, false, false⟩,
   ⟨"LOD3", 5/100, 45/100, 3, 0, true, true, false⟩,
   ⟨"LOD4", 1/100, 7/10, 3, 0, true, true, true⟩]

/-- `AggressiveLODManager` (lod_aggressive.py lines 59-122): mode string and
levels sorted ascending by `distance_threshold` (the `_thresholds` list is
`lod_levels.map distance_threshold` and is recomputed where needed). -/
structure AggressiveLODManager where
  mode : String
  lod_levels : List AggressiveLODLevel
deriving DecidableEq, Repr

/-- `AggressiveLODManager.__init__` (lod_aggressive.py lines 104-122):
select the preset for the mode (anything other than `"standard"` and
`"extreme"` means aggressive) and sort it ascending by threshold. -/
def AggressiveLODManager.init (mode : String) : AggressiveLODManager :=
  let levels :=
    if mode = "standard" then AggressiveLODManager.STANDARD_LODS
    else if mode = "extreme" then AggressiveLODManager.EXTREME_LODS
    else AggressiveLODManager.AGGRESSIVE_LODS
  ⟨mode, List.insertionSort
    (fun a b => a.distance_threshold ≤ b.distance_threshold) levels⟩

/-- Python `bisect.bisect_right(a, x)` from the standard library: on a list
sorted ascending it returns the insertion point to the right of any entries
equal to `x`, i.e. the length of the maximal prefix of entries `<= x`.  The
stdlib binary search computes exactly that value on sorted input, which is
the only way the source calls it. -/
def bisect_right (a : List ℚ) (x : ℚ) : Nat :=
  (a.takeWhile (fun v => decide (v ≤ x))).length

/-- `AggressiveLODManager.get_lod_for_distance` (lod_aggressive.py lines
124-140): `idx = max(0, bisect_right(thresholds, distance) - 1)` — the `Nat`
truncated subtraction is exactly `max(0, i - 1)` — then
`self.lod_levels[idx]` (the `getD` default stands for the empty-list
IndexError state, never reached for the nonempty presets). -/
def AggressiveLODManager.get_lod_for_distance (mgr : AggressiveLODManager)
    (d : ℚ) : AggressiveLODLevel :=
  let idx :=
    bisect_right (mgr.lod_levels.map (fun l => l.distance_threshold)) d - 1
  mgr.lod_levels.getD idx ⟨"LOD0", 1, 0, 8, 3, false, false, false⟩

/-! ## frustum_culling.py: Plane and ViewFrustum -/

/-- `Plane` (frustum_culling.py lines 24-34). -/
structure Plane where
  a : ℚ
  b : ℚ
  c : ℚ
  d : ℚ
deriving DecidableEq, Repr

/-- `Plane.distance_to_point` (frustum_culling.py lines 48-57). -/
def Plane.distance_to_point (p : Plane) (x y z : ℚ) : ℚ :=
  p.a * x + p.b * y + p.c * z + p.d

/-- `ViewFrustum` (frustum_culling.py lines 60-83): the six planes (list
indices NEAR=0, FAR=1, LEFT=2, RIGHT=3, TOP=4, BOTTOM=5 become named
fields) and the `_extracted` flag. -/
structure ViewFrustum where
  near : Plane
  far : Plane
  left : Plane
  right : Plane
  top : Plane
  bottom : Plane
  extracted : Bool
deriving DecidableEq, Repr

/-- What `ViewFrustum.extract_from_camera` (frustum_culling.py lines 149-238)
establishes about the top and bottom planes: lines 235-236 assign the
constants `Plane(0, -1, 0, 10)` and `Plane(0, 1, 0, 10)` unconditionally,
for every camera parameter tuple, and set `_extracted`.  The four remaining
planes are built from trigonometric functions of the parameters (not exactly
representable over ℚ) and are left unconstrained by this predicate; every
frustum `extract_from_camera` can produce satisfies it. -/
def ViewFrustum.ExtractedFromCamera (f : ViewFrustum) : Prop :=
  f.top = ⟨0, -1, 0, 10⟩ ∧ f.bottom = ⟨0, 1, 0, 10⟩ ∧ f.extracted = true

/-- `ViewFrustum.is_point_visible` (frustum_culling.py lines 240-256):
everything visible before extraction; afterwards the point must be on the
non-negative side of all six planes. -/
def ViewFrustum.is_point_visible (f : ViewFrustum) (x y z : ℚ) : Bool :=
  if f.extracted = false then true
  else
    decide (0 ≤ f.near.distance_to_point x y z) &&
    decide (0 ≤ f.far.distance_to_point x y z) &&
    decide (0 ≤ f.left.distance_to_point x y z) &&
    decide (0 ≤ f.right.distance_to_point x y z) &&
    decide (0 ≤ f.top.distance_to_point x y z) &&
    decide (0 ≤ f.bottom.distance_to_point x y z)

/-- `ViewFrustum.is_sphere_visible` (frustum_culling.py lines 258-277):
reject only when some plane distance is `< -radius`. -/
def ViewFrustum.is_sphere_visible (f : ViewFrustum) (x y z radius : ℚ) :
    Bool :=
  if f.extracted = false then true
  else
    decide (-radius ≤ f.near.distance_to_point x y z) &&
    decide (-radius ≤ f.far.distance_to_point x y z) &&
    decide (-radius ≤ f.left.distance_to_point x y z) &&
    decide (-radius ≤ f.right.distance_to_point x y z) &&
    decide (-radius ≤ f.top.distance_to_point x y z) &&
    decide (-radius ≤ f.bottom.distance_to_point x y z)

/-- The per-plane p-vertex test of `ViewFrustum.is_aabb_visible`
(frustum_culling.py lines 296-302): pick the AABB corner most aligned with
the plane normal and test only it. -/
def Plane.aabbPVertexPasses (p : Plane)
    (x_min x_max y_min y_max z_min z_max : ℚ) : Bool :=
  let px := if 0 ≤ p.a then x_max else x_min
  let py := if 0 ≤ p.b then y_max else y_min
  let pz := if 0 ≤ p.c then z_max else z_min
  decide (0 ≤ p.distance_to_point px py pz)

/-- `ViewFrustum.is_aabb_visible` (frustum_culling.py lines 279-305). -/
def ViewFrustum.is_aabb_visible (f : ViewFrustum)
    (x_min x_max y_min y_max z_min z_max : ℚ) : Bool :=
  if f.extracted = false then true
  else
    f.near.aabbPVertexPasses x_min x_max y_min y_max z_min z_max &&
    f.far.aabbPVertexPasses x_min x_max y_min y_max z_min z_max &&
    f.left.aabbPVertexPasses x_min x_max y_min y_max z_min z_max &&
    f.right.aabbPVertexPasses x_min x_max y_min y_max z_min z_max &&
    f.top.aabbPVertexPasses x_min x_max y_min y_max z_min z_max &&
    f.bottom.aabbPVertexPasses x_min x_max y_min y_max z_min z_max

/-! ## Concrete objects used by counterexamples and witnesses -/

/-- A turbine at the origin (inside the Germany bounds). -/
def tCenter : WindTurbine := WindTurbine.init 0 0 (8/100) (4/100) 3000

/-- Nine coincident turbines: one more than the leaf capacity 8, at a single
point, so every split pushes all of them into one child. -/
def nineCoincident : List WindTurbine := List.replicate 9 tCenter

/-- The tree `QuadtreeManager.build` produces from `nineCoincident`. -/
def deepTree : QuadtreeNode :=
  QuadtreeManager.freshRoot.build_from_list nineCoincident

/-- A turbine at (5, 5), outside the Germany bounds of the default
`QuadtreeManager`. -/
def tOutside : WindTurbine := WindTurbine.init 5 5 (8/100) (4/100) 3000

/-- A query box around (5, 5). -/
def boxAroundOutside : BoundingBox := ⟨4, 6, 4, 6⟩

/-- Four loader-style turbines (valid `bl_name`) with years 1990, 1990,
1995, 2000. -/
def fourTurbinesBL : List WindTurbine :=
  [{ WindTurbine.init (1/10) (1/10) (8/100) (4/100) 3000 with
      year := 1990, bl_name := some "Bayern" },
   { WindTurbine.init (2/10) (1/10) (8/100) (4/100) 3000 with
      year := 1990, bl_name := some "Bayern" },
   { WindTurbine.init (3/10) (1/10) (8/100) (4/100) 3000 with
      year := 1995, bl_name := some "Hessen" },
   { WindTurbine.init (4/10) (1/10) (8/100) (4/100) 3000 with
      year := 2000, bl_name := some "Hessen" }]

/-- The same four years on turbines that never went through the loader:
`bl_name` was never assigned (exactly what `add_turbine` produces). -/
def fourTurbinesNoBL : List WindTurbine :=
  [{ WindTurbine.init (1/10) (1/10) (8/100) (4/100) 3000 with year := 1990 },
   { WindTurbine.init (2/10) (1/10) (8/100) (4/100) 3000 with year := 1990 },
   { WindTurbine.init (3/10) (1/10) (8/100) (4/100) 3000 with year := 1995 },
   { WindTurbine.init (4/10) (1/10) (8/100) (4/100) 3000 with year := 2000 }]

/-- A manager holding exactly the four loader-style turbines. -/
def mgrFourBL : WindTurbineManager :=
  { WindTurbineManager.init with turbines := fourTurbinesBL }

/-- A manager holding exactly the four `bl_name`-less turbines. -/
def mgrFourNoBL : WindTurbineManager :=
  { WindTurbineManager.init with turbines := fourTurbinesNoBL }

/-- A frustum whose top and bottom planes are the constants written by
`extract_from_camera` and whose other four planes are the zero plane, which
passes every point (signed distance 0 everywhere), isolating the effect of
the top/bottom planes. -/
def frustumTB : ViewFrustum :=
  ⟨⟨0, 0, 0, 0⟩, ⟨0, 0, 0, 0⟩, ⟨0, 0, 0, 0⟩, ⟨0, 0, 0, 0⟩,
   ⟨0, -1, 0, 10⟩, ⟨0, 1, 0, 10⟩, true⟩

end Windkraft

/-! # Theorems -/

namespace Windkraft

theorem contains_point_iff (b : BoundingBox) (x z : ℚ) :
    b.contains_point x z = true ↔
      b.x_min ≤ x ∧ x ≤ b.x_max ∧ b.z_min ≤ z ∧ z ≤ b.z_max := by
  simp [BoundingBox.contains_point, and_assoc]

theorem intersects_box_iff (b o : BoundingBox) :
    b.intersects_box o = true ↔
      b.x_min ≤ o.x_max ∧ o.x_min ≤ b.x_max ∧ b.z_min ≤ o.z_max ∧
        o.z_min ≤ b.z_max := by
  simp [BoundingBox.intersects_box, and_assoc]

theorem point_in_both_intersects {b q : BoundingBox} {x z : ℚ}
    (hb : b.contains_point x z = true) (hq : q.contains_point x z = true) :
    b.intersects_box q = true := by
  rw [contains_point_iff] at hb hq
  rw [intersects_box_iff]
  obtain ⟨h1, h2, h3, h4⟩ := hb
  obtain ⟨h5, h6, h7, h8⟩ := hq
  exact ⟨by linarith, by linarith, by linarith, by linarith⟩

theorem nwQuad_contains {b : BoundingBox} {x z : ℚ}
    (h : b.nwQuad.contains_point x z = true) : b.contains_point x z = true := by
  rw [contains_point_iff] at h ⊢
  simp only [BoundingBox.nwQuad, BoundingBox.get_center] at h
  obtain ⟨h1, h2, h3, h4⟩ := h
  refine ⟨h1, by linarith, h3, by linarith⟩

theorem neQuad_contains {b : BoundingBox} {x z : ℚ}
    (h : b.neQuad.contains_point x z = true) : b.contains_point x z = true := by
  rw [contains_point_iff] at h ⊢
  simp only [BoundingBox.neQuad, BoundingBox.get_center] at h
  obtain ⟨h1, h2, h3, h4⟩ := h
  refine ⟨by linarith, h2, h3, by linarith⟩

theorem swQuad_contains {b : BoundingBox} {x z : ℚ}
    (h : b.swQuad.contains_point x z = true) : b.contains_point x z = true := by
  rw [contains_point_iff] at h ⊢
  simp only [BoundingBox.swQuad, BoundingBox.get_center] at h
  obtain ⟨h1, h2, h3, h4⟩ := h
  refine ⟨h1, by linarith, by linarith, h4⟩

theorem seQuad_contains {b : BoundingBox} {x z : ℚ}
    (h : b.seQuad.contains_point x z = true) : b.contains_point x z = true := by
  rw [contains_point_iff] at h ⊢
  simp only [BoundingBox.seQuad, BoundingBox.get_center] at h
  obtain ⟨h1, h2, h3, h4⟩ := h
  refine ⟨by linarith, h2, by linarith, h4⟩

/-- Every point of a box lies in at least one of its four quadrants, so the
first-match distribution of `split` never drops an in-bounds turbine. -/
theorem quad_cover {b : BoundingBox} {x z : ℚ}
    (h : b.contains_point x z = true) :
    b.nwQuad.contains_point x z = true ∨ b.neQuad.contains_point x z = true ∨
    b.swQuad.contains_point x z = true ∨ b.seQuad.contains_point x z = true := by
  rw [contains_point_iff] at h
  obtain ⟨h1, h2, h3, h4⟩ := h
  rcases le_total x ((b.x_min + b.x_max) / 2) with hx | hx <;>
    rcases le_total z ((b.z_min + b.z_max) / 2) with hz | hz
  · refine Or.inl ?_
    rw [contains_point_iff]
    simp only [BoundingBox.nwQuad, BoundingBox.get_center]
    exact ⟨h1, hx, h3, hz⟩
  · refine Or.inr (Or.inr (Or.inl ?_))
    rw [contains_point_iff]
    simp only [BoundingBox.swQuad, BoundingBox.get_center]
    exact ⟨h1, hx, hz, h4⟩
  · refine Or.inr (Or.inl ?_)
    rw [contains_point_iff]
    simp only [BoundingBox.neQuad, BoundingBox.get_center]
    exact ⟨hx, h2, h3, hz⟩
  · refine Or.inr (Or.inr (Or.inr ?_))
    rw [contains_point_iff]
    simp only [BoundingBox.seQuad, BoundingBox.get_center]
    exact ⟨hx, h2, hz, h4⟩

/-- Inserting a turbine whose position is outside the node's bounds leaves
the node untouched (the guard at quadtree.py lines 152-154). -/
theorem insertGiven_not_contains {split} {n : QuadtreeNode} {t : WindTurbine}
    (h : n.bounds.contains_point t.x t.z = false) :
    QuadtreeNode.insertGiven split n t = n := by
  cases n <;>
    simp only [QuadtreeNode.bounds] at h <;>
    simp [QuadtreeNode.insertGiven, h]

/-- Everything `get_visible` returns is stored in the subtree. -/
theorem mem_get_visible {q : BoundingBox} {t : WindTurbine} :
    ∀ {n : QuadtreeNode}, t ∈ n.get_visible q → t ∈ n.allTurbines := by
  intro n
  induction n with
  | leaf b m d ts =>
    intro h
    simp only [QuadtreeNode.get_visible, QuadtreeNode.allTurbines] at h ⊢
    by_cases hi : b.intersects_box q
    · rw [if_pos hi] at h
      exact (List.mem_filter.mp h).1
    · rw [if_neg hi] at h
      simp at h
  | inner b m d nw ne sw se ihnw ihne ihsw ihse =>
    intro h
    simp only [QuadtreeNode.get_visible, QuadtreeNode.allTurbines] at h ⊢
    by_cases hi : b.intersects_box q
    · rw [if_pos hi] at h
      simp only [List.mem_append] at h ⊢
      rcases h with ((h | h) | h) | h
      · exact Or.inl (Or.inl (Or.inl (ihnw h)))
      · exact Or.inl (Or.inl (Or.inr (ihne h)))
      · exact Or.inl (Or.inr (ihsw h))
      · exact Or.inr (ihse h)
    · rw [if_neg hi] at h
      simp at h

/-- In a well-formed tree, every stored turbine lies inside the bounds of
the node storing the subtree. -/
theorem wf_allT_within :
    ∀ {n : QuadtreeNode}, n.wf →
      ∀ t ∈ n.allTurbines, n.bounds.contains_point t.x t.z = true := by
  intro n
  induction n with
  | leaf b m d ts =>
    intro hwf t ht
    exact hwf t ht
  | inner b m d nw ne sw se ihnw ihne ihsw ihse =>
    intro hwf t ht
    obtain ⟨hnwB, hneB, hswB, hseB, hnw, hne, hsw, hse⟩ := hwf
    simp only [QuadtreeNode.allTurbines, List.mem_append] at ht
    simp only [QuadtreeNode.bounds]
    rcases ht with ((h | h) | h) | h
    · exact nwQuad_contains (hnwB ▸ ihnw hnw t h)
    · exact neQuad_contains (hneB ▸ ihne hne t h)
    · exact swQuad_contains (hswB ▸ ihsw hsw t h)
    · exact seQuad_contains (hseB ▸ ihse hse t h)

/-- On a well-formed tree the hierarchical query is literally the brute-force
filter of the stored turbines: the pruning test can only discard subtrees
none of whose turbines lie in the query box. -/
theorem get_visible_eq_filter {q : BoundingBox} :
    ∀ {n : QuadtreeNode}, n.wf →
      n.get_visible q =
        n.allTurbines.filter (fun t => q.contains_point t.x t.z) := by
  intro n
  induction n with
  | leaf b m d ts =>
    intro hwf
    simp only [QuadtreeNode.get_visible, QuadtreeNode.allTurbines]
    by_cases hi : b.intersects_box q
    · rw [if_pos hi]
    · rw [if_neg hi]
      symm
      rw [List.filter_eq_nil_iff]
      intro t ht hq
      exact absurd (point_in_both_intersects (hwf t ht) hq) (by simp [hi])
  | inner b m d nw ne sw se ihnw ihne ihsw ihse =>
    intro hwf
    obtain ⟨hnwB, hneB, hswB, hseB, hnw, hne, hsw, hse⟩ := hwf
    simp only [QuadtreeNode.get_visible, QuadtreeNode.allTurbines]
    by_cases hi : b.intersects_box q
    · rw [if_pos hi, ihnw hnw, ihne hne, ihsw hsw, ihse hse]
      simp [List.filter_append]
    · rw [if_neg hi]
      symm
      rw [List.filter_eq_nil_iff]
      intro t ht hq
      have hin : t ∈ (QuadtreeNode.inner b m d nw ne sw se).allTurbines := ht
      have hb := wf_allT_within
        (n := QuadtreeNode.inner b m d nw ne sw se)
        ⟨hnwB, hneB, hswB, hseB, hnw, hne, hsw, hse⟩ t hin
      simp only [QuadtreeNode.bounds] at hb
      exact absurd (point_in_both_intersects hb hq) (by simp [hi])

/-- Pulling a cons out of the second block of an append. -/
theorem perm_shift2 (A B X : List WindTurbine) (t : WindTurbine) :
    (A ++ (B ++ (t :: X))).Perm (t :: (A ++ (B ++ X))) :=
  (List.Perm.append_left A List.perm_middle).trans List.perm_middle

/-- Pulling a cons out of the third block of an append. -/
theorem perm_shift3 (A B C X : List WindTurbine) (t : WindTurbine) :
    (A ++ (B ++ (C ++ (t :: X)))).Perm (t :: (A ++ (B ++ (C ++ X)))) :=
  (List.Perm.append_left A (perm_shift2 B C X t)).trans List.perm_middle

/-- Inserting an in-bounds turbine into a well-formed tree (with any split
routine satisfying `SplitSpec`) keeps the tree well-formed, adds exactly that
turbine to the stored multiset, and preserves the bounds. -/
theorem insertGiven_spec {split} (hs : SplitSpec split) :
    ∀ (n : QuadtreeNode) (t : WindTurbine), n.wf →
      n.bounds.contains_point t.x t.z = true →
      (QuadtreeNode.insertGiven split n t).wf ∧
      (QuadtreeNode.insertGiven split n t).allTurbines.Perm
        (t :: n.allTurbines) ∧
      (QuadtreeNode.insertGiven split n t).bounds = n.bounds := by
  intro n
  induction n with
  | leaf b m d ts =>
    intro t hwf hc
    simp only [QuadtreeNode.bounds] at hc
    have hall : ∀ u ∈ ts ++ [t], b.contains_point u.x u.z = true := by
      intro u hu
      rcases List.mem_append.mp hu with h | h
      · exact hwf u h
      · rw [List.mem_singleton.mp h]; exact hc
    simp only [QuadtreeNode.insertGiven]
    rw [if_pos hc]
    by_cases hm : m < (ts ++ [t]).length
    · rw [if_pos hm]
      obtain ⟨h1, h2, h3⟩ := hs b m d (ts ++ [t]) hall
      exact ⟨h1, h2.trans (List.perm_append_singleton t ts), h3⟩
    · rw [if_neg hm]
      exact ⟨hall, List.perm_append_singleton t ts, rfl⟩
  | inner b m d nw ne sw se ihnw ihne ihsw ihse =>
    intro t hwf hc
    obtain ⟨hnwB, hneB, hswB, hseB, hnw, hne, hsw, hse⟩ := hwf
    simp only [QuadtreeNode.bounds] at hc
    simp only [QuadtreeNode.insertGiven]
    rw [if_pos hc]
    by_cases h1 : nw.bounds.contains_point t.x t.z = true
    · obtain ⟨hw, hp, hb⟩ := ihnw t hnw h1
      rw [if_pos h1]
      refine ⟨⟨hb.trans hnwB, hneB, hswB, hseB, hw, hne, hsw, hse⟩, ?_, rfl⟩
      simp only [QuadtreeNode.allTurbines]
      refine (((hp.append_right _).append_right _).append_right _).trans ?_
      simp
    · rw [if_neg h1]
      by_cases h2 : ne.bounds.contains_point t.x t.z = true
      · obtain ⟨hw, hp, hb⟩ := ihne t hne h2
        rw [if_pos h2]
        refine ⟨⟨hnwB, hb.trans hneB, hswB, hseB, hnw, hw, hsw, hse⟩, ?_, rfl⟩
        simp only [QuadtreeNode.allTurbines]
        refine ((((hp.append_left _).append_right _).append_right _)).trans ?_
        simp only [List.append_assoc]
        exact List.perm_middle
      · rw [if_neg h2]
        by_cases h3 : sw.bounds.contains_point t.x t.z = true
        · obtain ⟨hw, hp, hb⟩ := ihsw t hsw h3
          rw [if_pos h3]
          refine ⟨⟨hnwB, hneB, hb.trans hswB, hseB, hnw, hne, hw, hse⟩, ?_,
            rfl⟩
          simp only [QuadtreeNode.allTurbines]
          refine ((hp.append_left _).append_right _).trans ?_
          simp only [List.append_assoc]
          exact perm_shift2 _ _ _ t
        · rw [if_neg h3]
          by_cases h4 : se.bounds.contains_point t.x t.z = true
          · obtain ⟨hw, hp, hb⟩ := ihse t hse h4
            rw [if_pos h4]
            refine ⟨⟨hnwB, hneB, hswB, hb.trans hseB, hnw, hne, hsw, hw⟩, ?_,
              rfl⟩
            simp only [QuadtreeNode.allTurbines]
            refine (hp.append_left _).trans ?_
            simp only [List.append_assoc]
            exact perm_shift3 _ _ _ _ t
          · exfalso
            rcases quad_cover hc with h | h | h | h
            · exact h1 (by rw [hnwB]; exact h)
            · exact h2 (by rw [hneB]; exact h)
            · exact h3 (by rw [hswB]; exact h)
            · exact h4 (by rw [hseB]; exact h)

/-- Pulling a cons out of the fourth block of an append. -/
theorem perm_shift4 (A B C D X : List WindTurbine) (t : WindTurbine) :
    (A ++ (B ++ (C ++ (D ++ (t :: X))))).Perm
      (t :: (A ++ (B ++ (C ++ (D ++ X))))) :=
  (List.Perm.append_left A (perm_shift3 B C D X t)).trans List.perm_middle

/-- The split redistribution loop, on quadrant children of a common parent
box: it keeps the children well-formed over their quadrant bounds and moves
exactly the in-bounds turbine list into them (first-match never drops an
in-bounds turbine because the quadrants cover the parent box). -/
theorem distributeGiven_spec {split} (hs : SplitSpec split)
    (b : BoundingBox) :
    ∀ (ts : List WindTurbine) (c1 c2 c3 c4 : QuadtreeNode),
      (∀ t ∈ ts, b.contains_point t.x t.z = true) →
      c1.bounds = b.nwQuad → c2.bounds = b.neQuad →
      c3.bounds = b.swQuad → c4.bounds = b.seQuad →
      c1.wf → c2.wf → c3.wf → c4.wf →
      (QuadtreeNode.distributeGiven split (c1, c2, c3, c4) ts).1.wf ∧
      (QuadtreeNode.distributeGiven split (c1, c2, c3, c4) ts).2.1.wf ∧
      (QuadtreeNode.distributeGiven split (c1, c2, c3, c4) ts).2.2.1.wf ∧
      (QuadtreeNode.distributeGiven split (c1, c2, c3, c4) ts).2.2.2.wf ∧
      (QuadtreeNode.distributeGiven split (c1, c2, c3, c4) ts).1.bounds =
        b.nwQuad ∧
      (QuadtreeNode.distributeGiven split (c1, c2, c3, c4) ts).2.1.bounds =
        b.neQuad ∧
      (QuadtreeNode.distributeGiven split (c1, c2, c3, c4) ts).2.2.1.bounds =
        b.swQuad ∧
      (QuadtreeNode.distributeGiven split (c1, c2, c3, c4) ts).2.2.2.bounds =
        b.seQuad ∧
      ((QuadtreeNode.distributeGiven split (c1, c2, c3, c4) ts).1.allTurbines
        ++ (QuadtreeNode.distributeGiven split (c1, c2, c3, c4)
              ts).2.1.allTurbines
        ++ (QuadtreeNode.distributeGiven split (c1, c2, c3, c4)
              ts).2.2.1.allTurbines
        ++ (QuadtreeNode.distributeGiven split (c1, c2, c3, c4)
              ts).2.2.2.allTurbines).Perm
        (ts ++ c1.allTurbines ++ c2.allTurbines ++ c3.allTurbines ++
          c4.allTurbines) := by
  intro ts
  induction ts with
  | nil =>
    intro c1 c2 c3 c4 hts hb1 hb2 hb3 hb4 hw1 hw2 hw3 hw4
    simp only [QuadtreeNode.distributeGiven]
    exact ⟨hw1, hw2, hw3, hw4, hb1, hb2, hb3, hb4, by simp⟩
  | cons t rest ih =>
    intro c1 c2 c3 c4 hts hb1 hb2 hb3 hb4 hw1 hw2 hw3 hw4
    have htb : b.contains_point t.x t.z = true := hts t (by simp)
    have hrest : ∀ u ∈ rest, b.contains_point u.x u.z = true := by
      intro u hu; exact hts u (by simp [hu])
    simp only [QuadtreeNode.distributeGiven]
    by_cases h1 : c1.bounds.contains_point t.x t.z = true
    · rw [if_pos h1]
      obtain ⟨hw, hp, hbnd⟩ := insertGiven_spec hs c1 t hw1 h1
      obtain ⟨g1, g2, g3, g4, g5, g6, g7, g8, g9⟩ :=
        ih (QuadtreeNode.insertGiven split c1 t) c2 c3 c4 hrest
          (hbnd.trans hb1) hb2 hb3 hb4 hw hw2 hw3 hw4
      refine ⟨g1, g2, g3, g4, g5, g6, g7, g8, ?_⟩
      refine g9.trans ?_
      refine ((((hp.append_left _).append_right _).append_right _).append_right
        _).trans ?_
      simp only [List.append_assoc, List.cons_append]
      exact List.perm_middle
    · rw [if_neg h1]
      by_cases h2 : c2.bounds.contains_point t.x t.z = true
      · rw [if_pos h2]
        obtain ⟨hw, hp, hbnd⟩ := insertGiven_spec hs c2 t hw2 h2
        obtain ⟨g1, g2, g3, g4, g5, g6, g7, g8, g9⟩ :=
          ih c1 (QuadtreeNode.insertGiven split c2 t) c3 c4 hrest
            hb1 (hbnd.trans hb2) hb3 hb4 hw1 hw hw3 hw4
        refine ⟨g1, g2, g3, g4, g5, g6, g7, g8, ?_⟩
        refine g9.trans ?_
        refine (((hp.append_left _).append_right _).append_right _).trans ?_
        simp only [List.append_assoc, List.cons_append]
        exact perm_shift2 _ _ _ t
      · rw [if_neg h2]
        by_cases h3 : c3.bounds.contains_point t.x t.z = true
        · rw [if_pos h3]
          obtain ⟨hw, hp, hbnd⟩ := insertGiven_spec hs c3 t hw3 h3
          obtain ⟨g1, g2, g3, g4, g5, g6, g7, g8, g9⟩ :=
            ih c1 c2 (QuadtreeNode.insertGiven split c3 t) c4 hrest
              hb1 hb2 (hbnd.trans hb3) hb4 hw1 hw2 hw hw4
          refine ⟨g1, g2, g3, g4, g5, g6, g7, g8, ?_⟩
          refine g9.trans ?_
          refine ((hp.append_left _).append_right _).trans ?_
          simp only [List.append_assoc, List.cons_append]
          exact perm_shift3 _ _ _ _ t
        · rw [if_neg h3]
          by_cases h4 : c4.bounds.contains_point t.x t.z = true
          · rw [if_pos h4]
            obtain ⟨hw, hp, hbnd⟩ := insertGiven_spec hs c4 t hw4 h4
            obtain ⟨g1, g2, g3, g4, g5, g6, g7, g8, g9⟩ :=
              ih c1 c2 c3 (QuadtreeNode.insertGiven split c4 t) hrest
                hb1 hb2 hb3 (hbnd.trans hb4) hw1 hw2 hw3 hw
            refine ⟨g1, g2, g3, g4, g5, g6, g7, g8, ?_⟩
            refine g9.trans ?_
            refine (hp.append_left _).trans ?_
            simp only [List.append_assoc, List.cons_append]
            exact perm_shift4 _ _ _ _ _ t
          · exfalso
            rcases quad_cover htb with h | h | h | h
            · exact h1 (by rw [hb1]; exact h)
            · exact h2 (by rw [hb2]; exact h)
            · exact h3 (by rw [hb3]; exact h)
            · exact h4 (by rw [hb4]; exact h)

/-- `splitT` satisfies the split specification for every fuel value:
well-formed result, same turbine multiset, same bounds. -/
theorem splitT_spec : ∀ fuel, SplitSpec (QuadtreeNode.splitT fuel) := by
  intro fuel
  induction fuel with
  | zero =>
    intro b m d ts hts
    exact ⟨hts, List.Perm.refl ts, rfl⟩
  | succ f ih =>
    intro b m d ts hts
    simp only [QuadtreeNode.splitT]
    by_cases hd : 10 < d
    · rw [if_pos hd]
      exact ⟨hts, List.Perm.refl ts, rfl⟩
    · rw [if_neg hd]
      obtain ⟨g1, g2, g3, g4, g5, g6, g7, g8, g9⟩ :=
        distributeGiven_spec ih b ts
          (.leaf b.nwQuad m (d+1) []) (.leaf b.neQuad m (d+1) [])
          (.leaf b.swQuad m (d+1) []) (.leaf b.seQuad m (d+1) [])
          hts rfl rfl rfl rfl (by intro u hu; simp at hu)
          (by intro u hu; simp at hu) (by intro u hu; simp at hu)
          (by intro u hu; simp at hu)
      refine ⟨⟨g5, g6, g7, g8, g1, g2, g3, g4⟩, ?_, rfl⟩
      simp only [QuadtreeNode.allTurbines]
      refine g9.trans ?_
      simp [QuadtreeNode.allTurbines]

/-- `insertT` keeps the tree well-formed, adds exactly the in-bounds turbine
to the stored multiset, and preserves the bounds, for every fuel value. -/
theorem insertT_spec (fuel : Nat) (n : QuadtreeNode) (t : WindTurbine)
    (hwf : n.wf) (hc : n.bounds.contains_point t.x t.z = true) :
    (QuadtreeNode.insertT fuel n t).wf ∧
    (QuadtreeNode.insertT fuel n t).allTurbines.Perm (t :: n.allTurbines) ∧
    (QuadtreeNode.insertT fuel n t).bounds = n.bounds :=
  insertGiven_spec (splitT_spec fuel) n t hwf hc

/-- Folding `insertT` over an in-bounds turbine list: the tree stays
well-formed over the same bounds and accumulates exactly the list. -/
theorem foldl_insertT_spec (b : BoundingBox) :
    ∀ (ts : List WindTurbine) (acc : QuadtreeNode), acc.wf →
      acc.bounds = b → (∀ t ∈ ts, b.contains_point t.x t.z = true) →
      (ts.foldl (fun n t => QuadtreeNode.insertT 12 n t) acc).wf ∧
      (ts.foldl (fun n t =>
        QuadtreeNode.insertT 12 n t) acc).allTurbines.Perm
        (ts ++ acc.allTurbines) ∧
      (ts.foldl (fun n t => QuadtreeNode.insertT 12 n t) acc).bounds = b := by
  intro ts
  induction ts with
  | nil =>
    intro acc hwf hb hts
    exact ⟨hwf, by simp, hb⟩
  | cons t rest ih =>
    intro acc hwf hb hts
    have htb : acc.bounds.contains_point t.x t.z = true := by
      rw [hb]; exact hts t (by simp)
    obtain ⟨hw, hp, hbnd⟩ := insertT_spec 12 acc t hwf htb
    obtain ⟨g1, g2, g3⟩ := ih (QuadtreeNode.insertT 12 acc t) hw
      (hbnd.trans hb) (by intro u hu; exact hts u (by simp [hu]))
    refine ⟨g1, ?_, g3⟩
    simp only [List.foldl_cons]
    refine g2.trans ?_
    refine ((hp.append_left rest).trans ?_)
    simp only [List.cons_append]
    exact List.perm_middle

/-- `build_from_list` on an empty leaf root produces a well-formed tree over
the root bounds holding exactly the in-bounds input list. -/
theorem build_from_list_spec (b : BoundingBox) (m d : Nat)
    (ts : List WindTurbine)
    (hts : ∀ t ∈ ts, b.contains_point t.x t.z = true) :
    ((QuadtreeNode.leaf b m d []).build_from_list ts).wf ∧
    ((QuadtreeNode.leaf b m d []).build_from_list ts).allTurbines.Perm ts ∧
    ((QuadtreeNode.leaf b m d []).build_from_list ts).bounds = b := by
  obtain ⟨g1, g2, g3⟩ := foldl_insertT_spec b ts (.leaf b m d [])
    (by intro u hu; simp at hu) rfl hts
  simp only [QuadtreeNode.build_from_list, QuadtreeNode.bounds,
    QuadtreeNode.maxTurbines, QuadtreeNode.nodeDepth]
  exact ⟨g1, by simpa [QuadtreeNode.allTurbines] using g2, g3⟩

/-- Depth bound for `insertGiven`: if the split routine respects the depth
cap, an insert never creates a node deeper than `max` of the current maximal
depth and 11. -/
theorem insertGiven_depth {split} (hs : SplitDepth split) :
    ∀ (n : QuadtreeNode) (t : WindTurbine),
      (QuadtreeNode.insertGiven split n t).maxNodeDepth ≤
        max n.maxNodeDepth 11 := by
  intro n
  induction n with
  | leaf b m d ts =>
    intro t
    simp only [QuadtreeNode.insertGiven, QuadtreeNode.maxNodeDepth]
    by_cases hc : b.contains_point t.x t.z = true
    · rw [if_pos hc]
      by_cases hm : m < (ts ++ [t]).length
      · rw [if_pos hm]
        exact hs b m d (ts ++ [t])
      · rw [if_neg hm]
        simp [QuadtreeNode.maxNodeDepth]
    · rw [if_neg hc]
      simp [QuadtreeNode.maxNodeDepth]
  | inner b m d nw ne sw se ihnw ihne ihsw ihse =>
    intro t
    simp only [QuadtreeNode.insertGiven]
    by_cases hc : b.contains_point t.x t.z = true
    · rw [if_pos hc]
      by_cases h1 : nw.bounds.contains_point t.x t.z = true
      · rw [if_pos h1]
        simp only [QuadtreeNode.maxNodeDepth]
        have := ihnw t
        omega
      · rw [if_neg h1]
        by_cases h2 : ne.bounds.contains_point t.x t.z = true
        · rw [if_pos h2]
          simp only [QuadtreeNode.maxNodeDepth]
          have := ihne t
          omega
        · rw [if_neg h2]
          by_cases h3 : sw.bounds.contains_point t.x t.z = true
          · rw [if_pos h3]
            simp only [QuadtreeNode.maxNodeDepth]
            have := ihsw t
            omega
          · rw [if_neg h3]
            by_cases h4 : se.bounds.contains_point t.x t.z = true
            · rw [if_pos h4]
              simp only [QuadtreeNode.maxNodeDepth]
              have := ihse t
              omega
            · rw [if_neg h4]
              simp [QuadtreeNode.maxNodeDepth]
    · rw [if_neg hc]
      simp [QuadtreeNode.maxNodeDepth]

/-- Depth bound for the redistribution loop. -/
theorem distributeGiven_depth {split} (hs : SplitDepth split) :
    ∀ (ts : List WindTurbine) (c1 c2 c3 c4 : QuadtreeNode),
      c1.maxNodeDepth ≤ 11 → c2.maxNodeDepth ≤ 11 →
      c3.maxNodeDepth ≤ 11 → c4.maxNodeDepth ≤ 11 →
      (QuadtreeNode.distributeGiven split (c1, c2, c3, c4)
        ts).1.maxNodeDepth ≤ 11 ∧
      (QuadtreeNode.distributeGiven split (c1, c2, c3, c4)
        ts).2.1.maxNodeDepth ≤ 11 ∧
      (QuadtreeNode.distributeGiven split (c1, c2, c3, c4)
        ts).2.2.1.maxNodeDepth ≤ 11 ∧
      (QuadtreeNode.distributeGiven split (c1, c2, c3, c4)
        ts).2.2.2.maxNodeDepth ≤ 11 := by
  intro ts
  induction ts with
  | nil =>
    intro c1 c2 c3 c4 h1 h2 h3 h4
    exact ⟨h1, h2, h3, h4⟩
  | cons t rest ih =>
    intro c1 c2 c3 c4 h1 h2 h3 h4
    simp only [QuadtreeNode.distributeGiven]
    by_cases g1 : c1.bounds.contains_point t.x t.z = true
    · rw [if_pos g1]
      refine ih _ _ _ _ ?_ h2 h3 h4
      have := insertGiven_depth hs c1 t
      omega
    · rw [if_neg g1]
      by_cases g2 : c2.bounds.contains_point t.x t.z = true
      · rw [if_pos g2]
        refine ih _ _ _ _ h1 ?_ h3 h4
        have := insertGiven_depth hs c2 t
        omega
      · rw [if_neg g2]
        by_cases g3 : c3.bounds.contains_point t.x t.z = true
        · rw [if_pos g3]
          refine ih _ _ _ _ h1 h2 ?_ h4
          have := insertGiven_depth hs c3 t
          omega
        · rw [if_neg g3]
          by_cases g4 : c4.bounds.contains_point t.x t.z = true
          · rw [if_pos g4]
            refine ih _ _ _ _ h1 h2 h3 ?_
            have := insertGiven_depth hs c4 t
            omega
          · rw [if_neg g4]
            exact ih _ _ _ _ h1 h2 h3 h4

/-- `splitT` respects the depth cap for every fuel value: a split at depth
`d` creates no node deeper than `max d 11` (children appear at `d + 1` only
when `d ≤ 10`). -/
theorem splitT_depth : ∀ fuel, SplitDepth (QuadtreeNode.splitT fuel) := by
  intro fuel
  induction fuel with
  | zero =>
    intro b m d ts
    simp [QuadtreeNode.splitT, QuadtreeNode.maxNodeDepth]
  | succ f ih =>
    intro b m d ts
    simp only [QuadtreeNode.splitT]
    by_cases hd : 10 < d
    · rw [if_pos hd]
      simp [QuadtreeNode.maxNodeDepth]
    · rw [if_neg hd]
      obtain ⟨g1, g2, g3, g4⟩ := distributeGiven_depth ih ts
        (.leaf b.nwQuad m (d+1) []) (.leaf b.neQuad m (d+1) [])
        (.leaf b.swQuad m (d+1) []) (.leaf b.seQuad m (d+1) [])
        (by simp [QuadtreeNode.maxNodeDepth]; omega)
        (by simp [QuadtreeNode.maxNodeDepth]; omega)
        (by simp [QuadtreeNode.maxNodeDepth]; omega)
        (by simp [QuadtreeNode.maxNodeDepth]; omega)
      simp only [QuadtreeNode.maxNodeDepth]
      omega

/-- Depth bound for folding `insertT 12` over any turbine list. -/
theorem foldl_insertT_depth :
    ∀ (ts : List WindTurbine) (acc : QuadtreeNode), acc.maxNodeDepth ≤ 11 →
      (ts.foldl (fun n t =>
        QuadtreeNode.insertT 12 n t) acc).maxNodeDepth ≤ 11 := by
  intro ts
  induction ts with
  | nil =>
    intro acc h
    exact h
  | cons t rest ih =>
    intro acc h
    simp only [List.foldl_cons]
    refine ih _ ?_
    have h2 : (QuadtreeNode.insertT 12 acc t).maxNodeDepth ≤
        max acc.maxNodeDepth 11 := insertGiven_depth (splitT_depth 12) acc t
    omega

/-- C1, counterexample: a feature outside the quadtree's root bounds is
silently dropped by `insert`, so a query box around its position returns the
empty list while the brute-force point-in-box filter of the inserted list
returns the feature — the claimed equality fails for lists containing
out-of-bounds features.  Here the tree is the default Germany-bounds
`QuadtreeManager` root built from the single turbine at (5, 5). -/
theorem c1_counterexample :
    (QuadtreeManager.freshRoot.build_from_list [tOutside]).get_visible
      boxAroundOutside = [] ∧
    [tOutside].filter
      (fun t => boxAroundOutside.contains_point t.x t.z) = [tOutside] ∧
    ¬ ((QuadtreeManager.freshRoot.build_from_list [tOutside]).get_visible
        boxAroundOutside).Perm
      ([tOutside].filter
        (fun t => boxAroundOutside.contains_point t.x t.z)) := by
  have hA : (QuadtreeManager.freshRoot.build_from_list [tOutside]).get_visible
      boxAroundOutside = [] := by with_unfolding_all rfl
  have hB : [tOutside].filter
      (fun t => boxAroundOutside.contains_point t.x t.z) = [tOutside] := by
    with_unfolding_all rfl
  refine ⟨hA, hB, ?_⟩
  rw [hA, hB]
  intro h
  simpa using h.length_eq

/-- C1 (amended): for every list of features whose positions lie within the
root bounds, and every query box, `get_visible` on the tree built from the
list returns exactly the features whose position lies in the box — the same
multiset as the brute-force point-in-box filter of the inserted list. -/
theorem c1_query_eq_bruteforce (b : BoundingBox) (m d : Nat)
    (ts : List WindTurbine) (q : BoundingBox)
    (hts : ∀ t ∈ ts, b.contains_point t.x t.z = true) :
    (((QuadtreeNode.leaf b m d []).build_from_list ts).get_visible q).Perm
      (ts.filter (fun t => q.contains_point t.x t.z)) := by
  obtain ⟨hwf, hperm, hb⟩ := build_from_list_spec b m d ts hts
  rw [get_visible_eq_filter hwf]
  exact hperm.filter _

/-- Witness for C1 (amended) at a concrete in-bounds list and box. -/
theorem c1_witness :
    (∀ t ∈ [tCenter], germanyBounds.contains_point t.x t.z = true) ∧
    (((QuadtreeNode.leaf germanyBounds 8 0 []).build_from_list
        [tCenter]).get_visible ⟨-1, 1, -1, 1⟩).Perm
      ([tCenter].filter
        (fun t => BoundingBox.contains_point ⟨-1, 1, -1, 1⟩ t.x t.z)) :=
  ⟨by with_unfolding_all decide,
    c1_query_eq_bruteforce germanyBounds 8 0 [tCenter] ⟨-1, 1, -1, 1⟩
      (by with_unfolding_all decide)⟩

/-- C2: when a leaf holding an in-bounds turbine list splits, every held
feature is redistributed to exactly one of the four children (a feature on a
split boundary goes to the first matching child only, because of the
`break`), and recursively every feature ends up in exactly one leaf of the
resulting subtree: the concatenation of all leaf lists is a permutation of
the original list — nothing duplicated, nothing lost. -/
theorem c2_split_exactly_one_leaf (fuel : Nat) (b : BoundingBox) (m d : Nat)
    (ts : List WindTurbine)
    (hts : ∀ t ∈ ts, b.contains_point t.x t.z = true) :
    (QuadtreeNode.splitT fuel b m d ts).allTurbines.Perm ts :=
  (splitT_spec fuel b m d ts hts).2.1

/-- Witness for C2: splitting a leaf over [0,1]×[0,1] holding nine turbines,
one of them exactly on the split boundary (1/2, 1/2), keeps exactly the nine
turbines. -/
theorem c2_witness :
    (∀ t ∈ (WindTurbine.init (1/2) (1/2) (8/100) (4/100) 3000 ::
        List.replicate 8 (WindTurbine.init (1/4) (1/4) (8/100) (4/100) 3000)),
      BoundingBox.contains_point ⟨0, 1, 0, 1⟩ t.x t.z = true) ∧
    (QuadtreeNode.splitT 12 ⟨0, 1, 0, 1⟩ 8 0
      (WindTurbine.init (1/2) (1/2) (8/100) (4/100) 3000 ::
        List.replicate 8
          (WindTurbine.init (1/4) (1/4) (8/100) (4/100)
            3000))).allTurbines.Perm
      (WindTurbine.init (1/2) (1/2) (8/100) (4/100) 3000 ::
        List.replicate 8
          (WindTurbine.init (1/4) (1/4) (8/100) (4/100) 3000)) :=
  ⟨by with_unfolding_all decide,
    c2_split_exactly_one_leaf 12 ⟨0, 1, 0, 1⟩ 8 0 _
      (by with_unfolding_all decide)⟩

/-- C8, counterexample: the split cutoff is `depth > 10`, so a node at depth
10 may still split and create children at depth 11.  Building the default
Germany-bounds root from nine coincident turbines (capacity 8) produces a
node whose depth is 11 — the claim that no node with depth greater than 10
is ever created is false. -/
theorem c8_counterexample : deepTree.maxNodeDepth = 11 := by
  with_unfolding_all decide

/-- C8 (amended): the recursion depth of every tree built through
`build_from_list`/`insert` from a depth-0 root is bounded by 11 (not 10):
the `depth > 10` cutoff lets a depth-10 node split once more, and nodes at
depth 11 never split, so no node with depth greater than 11 is ever
created. -/
theorem c8_depth_bounded_by_11 (b : BoundingBox) (m : Nat)
    (ts : List WindTurbine) :
    ((QuadtreeNode.leaf b m 0 []).build_from_list ts).maxNodeDepth ≤ 11 := by
  simp only [QuadtreeNode.build_from_list, QuadtreeNode.bounds,
    QuadtreeNode.maxTurbines, QuadtreeNode.nodeDepth]
  refine foldl_insertT_depth ts _ ?_
  simp [QuadtreeNode.maxNodeDepth]

/-- C10: inserting a turbine whose (x, z) position lies outside the node's
bounding box leaves the tree unchanged (the feature is silently dropped),
and no subsequent `get_visible` query returns it (provided it was not
already stored). -/
theorem c10_out_of_bounds_insert_noop (fuel : Nat) (n : QuadtreeNode)
    (t : WindTurbine) (q : BoundingBox)
    (h1 : n.bounds.contains_point t.x t.z = false)
    (h2 : t ∉ n.allTurbines) :
    QuadtreeNode.insertT fuel n t = n ∧
    t ∉ (QuadtreeNode.insertT fuel n t).get_visible q := by
  have he : QuadtreeNode.insertT fuel n t = n := insertGiven_not_contains h1
  refine ⟨he, ?_⟩
  rw [he]
  intro hm
  exact h2 (mem_get_visible hm)

/-- Witness for C10: the turbine at (5, 5) is outside the default Germany
root bounds; inserting it is a no-op and it is never reported visible. -/
theorem c10_witness :
    QuadtreeManager.freshRoot.bounds.contains_point tOutside.x tOutside.z =
      false ∧
    tOutside ∉ QuadtreeManager.freshRoot.allTurbines ∧
    (QuadtreeNode.insertT 12 QuadtreeManager.freshRoot tOutside =
      QuadtreeManager.freshRoot ∧
    tOutside ∉ (QuadtreeNode.insertT 12 QuadtreeManager.freshRoot
      tOutside).get_visible boxAroundOutside) :=
  ⟨by with_unfolding_all decide, by with_unfolding_all decide,
    c10_out_of_bounds_insert_noop 12 QuadtreeManager.freshRoot tOutside
      boxAroundOutside (by with_unfolding_all decide)
      (by with_unfolding_all decide)⟩

/-- The step function of `count_until_year` is additive in the
accumulator. -/
theorem count_foldl_add (y : Int) :
    ∀ (c : List (Int × List WindTurbine)) (a : Nat),
      c.foldl (fun acc e =>
        if e.1 ≤ y then acc + (e.2.filter WindTurbine.hasValidBL).length
        else acc) a =
      a + c.foldl (fun acc e =>
        if e.1 ≤ y then acc + (e.2.filter WindTurbine.hasValidBL).length
        else acc) 0 := by
  intro c
  induction c with
  | nil => intro a; simp
  | cons e r ih =>
    intro a
    simp only [List.foldl_cons]
    by_cases he : e.1 ≤ y
    · rw [if_pos he, if_pos he, ih (a + _), ih ((0 : Nat) + _)]
      omega
    · rw [if_neg he, if_neg he, ih a]

/-- Unfolding one cache entry out of the count fold. -/
theorem count_foldl_cons (y : Int) (e : Int × List WindTurbine)
    (r : List (Int × List WindTurbine)) :
    (e :: r).foldl (fun acc e =>
      if e.1 ≤ y then acc + (e.2.filter WindTurbine.hasValidBL).length
      else acc) 0 =
    (if e.1 ≤ y then (e.2.filter WindTurbine.hasValidBL).length else 0) +
    r.foldl (fun acc e =>
      if e.1 ≤ y then acc + (e.2.filter WindTurbine.hasValidBL).length
      else acc) 0 := by
  simp only [List.foldl_cons]
  rw [count_foldl_add y r]
  by_cases he : e.1 ≤ y <;> simp [he]

/-- Adding one turbine to its year group changes the count by exactly its
own contribution. -/
theorem count_cacheInsert (y k : Int) (t : WindTurbine) :
    ∀ (c : List (Int × List WindTurbine)),
      (cacheInsert c k t).foldl (fun acc e =>
        if e.1 ≤ y then acc + (e.2.filter WindTurbine.hasValidBL).length
        else acc) 0 =
      c.foldl (fun acc e =>
        if e.1 ≤ y then acc + (e.2.filter WindTurbine.hasValidBL).length
        else acc) 0 +
      (if k ≤ y ∧ t.hasValidBL = true then 1 else 0) := by
  have hlen : ([t].filter WindTurbine.hasValidBL).length =
      (if t.hasValidBL = true then 1 else 0) := by
    by_cases hv : t.hasValidBL = true <;> simp [hv]
  intro c
  induction c with
  | nil =>
    simp only [cacheInsert, count_foldl_cons, List.foldl_nil]
    by_cases hk : k ≤ y <;> by_cases hv : t.hasValidBL = true <;>
      simp [hk, hv]
  | cons e r ih =>
    simp only [cacheInsert]
    by_cases hk : e.1 = k
    · rw [if_pos hk, count_foldl_cons, count_foldl_cons, ← hk,
        List.filter_append, List.length_append, hlen]
      by_cases he : e.1 ≤ y <;> by_cases hv : t.hasValidBL = true <;>
        first
        | (simp [he, hv]; omega)
        | simp [he, hv]
    · rw [if_neg hk, count_foldl_cons, count_foldl_cons, ih]
      simp only [Prod.mk.eta]
      omega

/-- The cache-based count over `buildYearCache ts` is the plain filtered
count over `ts`. -/
theorem count_buildYearCache (y : Int) :
    ∀ (ts : List WindTurbine) (c : List (Int × List WindTurbine)),
      (ts.foldl (fun c t => cacheInsert c t.year t) c).foldl (fun acc e =>
        if e.1 ≤ y then acc + (e.2.filter WindTurbine.hasValidBL).length
        else acc) 0 =
      c.foldl (fun acc e =>
        if e.1 ≤ y then acc + (e.2.filter WindTurbine.hasValidBL).length
        else acc) 0 +
      ts.countP (fun t => decide (t.year ≤ y) && t.hasValidBL) := by
  intro ts
  induction ts with
  | nil => intro c; simp
  | cons t rest ih =>
    intro c
    simp only [List.foldl_cons]
    rw [ih (cacheInsert c t.year t), count_cacheInsert y t.year t c,
      List.countP_cons]
    by_cases hc : (decide (t.year ≤ y) && t.hasValidBL) = true
    · rw [if_pos hc]
      have : t.year ≤ y ∧ t.hasValidBL = true := by
        simpa [Bool.and_eq_true] using hc
      rw [if_pos this]
      omega
    · rw [if_neg hc]
      have : ¬ (t.year ≤ y ∧ t.hasValidBL = true) := by
        simpa [Bool.and_eq_true] using hc
      rw [if_neg this]
      omega

/-- On a cache-consistent manager, `count_until_year` is the filtered count
over the turbine list. -/
theorem count_until_year_eq_countP (mgr : WindTurbineManager)
    (hcc : mgr.CacheConsistent) (y : Int) :
    mgr.count_until_year y =
      mgr.turbines.countP
        (fun t => decide (t.year ≤ y) && t.hasValidBL) := by
  unfold WindTurbineManager.count_until_year WindTurbineManager.refreshed
  by_cases hv : mgr.cache_valid = true
  · rw [if_pos hv, hcc hv]
    simpa using count_buildYearCache y mgr.turbines []
  · rw [if_neg hv]
    simp only [WindTurbineManager.build_year_cache, buildYearCache]
    simpa using count_buildYearCache y mgr.turbines []

/-- Everything `get_turbines_until_year` returns has a valid `bl_name`. -/
theorem mem_get_turbines_validBL {mgr : WindTurbineManager} {y : Int}
    {t : WindTurbine} (h : t ∈ mgr.get_turbines_until_year y) :
    t.hasValidBL = true := by
  unfold WindTurbineManager.get_turbines_until_year at h
  obtain ⟨k, hk, ht⟩ := List.mem_flatMap.mp h
  exact (List.mem_filter.mp ht).2

/-- C3: turbines added through `add_turbine` never appear in the results of
`get_turbines_until_year` or `get_visible_turbines_until_year`, regardless
of the query year and of whether `build_year_cache` is called again: the
`WindTurbine` constructor never assigns `bl_name`, and both queries filter
on a valid `bl_name`, so the newly added turbines are silently omitted. -/
theorem c3_added_turbine_omitted (mgr : WindTurbineManager)
    (x z height rotor_radius power_kw : ℚ) (y : Int) :
    (mgr.add_turbine x z height rotor_radius power_kw).1 ∉
      ((mgr.add_turbine x z height rotor_radius
        power_kw).2.get_turbines_until_year y) ∧
    (mgr.add_turbine x z height rotor_radius power_kw).1 ∉
      ((mgr.add_turbine x z height rotor_radius
        power_kw).2.get_visible_turbines_until_year y) := by
  have hbl : (mgr.add_turbine x z height rotor_radius
      power_kw).1.hasValidBL = false := rfl
  constructor
  · intro hm
    rw [mem_get_turbines_validBL hm] at hbl
    exact Bool.true_eq_false.mp hbl
  · intro hm
    unfold WindTurbineManager.get_visible_turbines_until_year at hm
    rw [mem_get_turbines_validBL (List.mem_filter.mp hm).1] at hbl
    exact Bool.true_eq_false.mp hbl

/-- C4, counterexample: a manager holding exactly four turbines with years
[1990, 1990, 1995, 2000] that never passed the loader (`bl_name` missing,
exactly what `add_turbine` + year assignment produces) reports
`count_until(2025) = 0`, not 4: `count_until_year` filters turbines without
a valid `bl_name`. -/
theorem c4_counterexample :
    mgrFourNoBL.turbines.map WindTurbine.year = [1990, 1990, 1995, 2000] ∧
    mgrFourNoBL.count_until_year 1995 = 0 ∧
    mgrFourNoBL.count_until_year 1989 = 0 ∧
    mgrFourNoBL.count_until_year 2025 = 0 ∧
    ¬ mgrFourNoBL.count_until_year 2025 = 4 := by
  refine ⟨by with_unfolding_all rfl, ?_, ?_, ?_, ?_⟩ <;>
    with_unfolding_all decide

/-- C4 (amended): for every cache-consistent manager holding exactly four
turbines with a valid `bl_name` whose years are [1990, 1990, 1995, 2000] (in
any order), `count_until(1995) = 3`, `count_until(1989) = 0` and
`count_until(2025) = 4`. -/
theorem c4_year_counts (mgr : WindTurbineManager)
    (hcc : mgr.CacheConsistent)
    (hyears : (mgr.turbines.map WindTurbine.year).Perm
      [1990, 1990, 1995, 2000])
    (hbl : ∀ t ∈ mgr.turbines, t.hasValidBL = true) :
    mgr.count_until_year 1995 = 3 ∧ mgr.count_until_year 1989 = 0 ∧
    mgr.count_until_year 2025 = 4 := by
  have key : ∀ y : Int, mgr.count_until_year y =
      List.countP (fun v => decide (v ≤ y)) [1990, 1990, 1995, 2000] := by
    intro y
    rw [count_until_year_eq_countP mgr hcc y]
    have h1 : mgr.turbines.countP
        (fun t => decide (t.year ≤ y) && t.hasValidBL) =
        mgr.turbines.countP (fun t => decide (t.year ≤ y)) := by
      apply List.countP_congr
      intro t ht
      simp [hbl t ht]
    have h2 : List.countP (fun v => decide (v ≤ y))
        (mgr.turbines.map WindTurbine.year) =
        List.countP (fun t => decide (t.year ≤ y)) mgr.turbines := by
      rw [List.countP_map]
      rfl
    rw [h1, ← h2, hyears.countP_eq]
  rw [key 1995, key 1989, key 2025]
  refine ⟨by decide, by decide, by decide⟩

/-- Witness for C4 (amended): the four loader-style turbines. -/
theorem c4_witness :
    mgrFourBL.CacheConsistent ∧
    (mgrFourBL.turbines.map WindTurbine.year).Perm
      [1990, 1990, 1995, 2000] ∧
    (∀ t ∈ mgrFourBL.turbines, t.hasValidBL = true) ∧
    (mgrFourBL.count_until_year 1995 = 3 ∧
     mgrFourBL.count_until_year 1989 = 0 ∧
     mgrFourBL.count_until_year 2025 = 4) := by
  have hcc : mgrFourBL.CacheConsistent := by
    intro h
    exact absurd h (by with_unfolding_all decide)
  have hy : (mgrFourBL.turbines.map WindTurbine.year).Perm
      [1990, 1990, 1995, 2000] := by with_unfolding_all decide
  have hbl : ∀ t ∈ mgrFourBL.turbines, t.hasValidBL = true := by
    with_unfolding_all decide
  exact ⟨hcc, hy, hbl, c4_year_counts mgrFourBL hcc hy hbl⟩

/-- C7: on every cache-consistent ("built") manager the cumulative year
count is monotone — `count_until(Y1) ≤ count_until(Y2)` for `Y1 < Y2` — and
any year strictly below every stored turbine year yields count 0. -/
theorem c7_count_monotone (mgr : WindTurbineManager)
    (hcc : mgr.CacheConsistent) :
    (∀ y1 y2 : Int, y1 < y2 →
      mgr.count_until_year y1 ≤ mgr.count_until_year y2) ∧
    (∀ y : Int, (∀ t ∈ mgr.turbines, y < t.year) →
      mgr.count_until_year y = 0) := by
  constructor
  · intro y1 y2 h12
    rw [count_until_year_eq_countP mgr hcc y1,
      count_until_year_eq_countP mgr hcc y2]
    apply List.countP_mono_left
    intro t ht hp
    have := (Bool.and_eq_true _ _).mp hp
    simp only [decide_eq_true_eq] at this
    simp only [Bool.and_eq_true, decide_eq_true_eq]
    exact ⟨by omega, this.2⟩
  · intro y hy
    rw [count_until_year_eq_countP mgr hcc y]
    rw [List.countP_eq_zero]
    intro t ht
    simp only [Bool.and_eq_true, decide_eq_true_eq, not_and]
    intro hle
    exact absurd (hy t ht) (by omega)

/-- Witness for C7 at the concrete four-turbine manager. -/
theorem c7_witness :
    mgrFourBL.CacheConsistent ∧
    ((1990 : Int) < 1995 ∧
      mgrFourBL.count_until_year 1990 ≤ mgrFourBL.count_until_year 1995) ∧
    ((∀ t ∈ mgrFourBL.turbines, (1980 : Int) < t.year) ∧
      mgrFourBL.count_until_year 1980 = 0) := by
  have hcc : mgrFourBL.CacheConsistent := by
    intro h
    exact absurd h (by with_unfolding_all decide)
  have hmin : ∀ t ∈ mgrFourBL.turbines, (1980 : Int) < t.year := by
    with_unfolding_all decide
  exact ⟨hcc,
    ⟨by decide, (c7_count_monotone mgrFourBL hcc).1 1990 1995 (by decide)⟩,
    ⟨hmin, (c7_count_monotone mgrFourBL hcc).2 1980 hmin⟩⟩

/-- C9, counterexample: constructing a plain `LODLevel` with
`polygon_ratio = 2` (outside [0, 1]) and `distance_threshold = -1`
(negative) is not rejected — `LODLevel.__init__` performs no validation and
the invalid values are stored verbatim — while the aggressive dataclass
rejects the same values.  So the claim fails for the `LODLevel` type
exposed by lod.py. -/
theorem c9_counterexample :
    (LODLevel.init "LOD0" 2 (-1)).polygon_ratio = 2 ∧
    (LODLevel.init "LOD0" 2 (-1)).distance_threshold = -1 ∧
    AggressiveLODLevel.make "LOD0" 2 (-1) 8 3 false false false = none := by
  refine ⟨rfl, rfl, ?_⟩
  with_unfolding_all rfl

/-- C9 (amended): only `AggressiveLODLevel` fails fast: its construction
succeeds exactly when `0 ≤ polygon_ratio ≤ 1`, `distance_threshold ≥ 0`,
`segment_count ≥ 3` and `blade_count ≤ 3`; the plain `LODLevel` of lod.py
performs no validation at all and accepts any values. -/
theorem c9_aggressive_validates (name : String)
    (polygon_ratio distance_threshold : ℚ) (segment_count blade_count : Nat)
    (skip_nacelle skip_blades use_billboard : Bool) :
    ((AggressiveLODLevel.make name polygon_ratio distance_threshold
        segment_count blade_count skip_nacelle skip_blades
        use_billboard).isSome = true ↔
      (0 ≤ polygon_ratio ∧ polygon_ratio ≤ 1 ∧ 0 ≤ distance_threshold ∧
        3 ≤ segment_count ∧ blade_count ≤ 3)) ∧
    (LODLevel.init name polygon_ratio distance_threshold).polygon_ratio =
      polygon_ratio ∧
    (LODLevel.init name polygon_ratio
      distance_threshold).distance_threshold = distance_threshold := by
  refine ⟨?_, rfl, rfl⟩
  unfold AggressiveLODLevel.make
  by_cases h : (0 ≤ polygon_ratio ∧ polygon_ratio ≤ 1 ∧
      0 ≤ distance_threshold ∧ 3 ≤ segment_count ∧ blade_count ≤ 3)
  · rw [if_pos h]
    simpa using h
  · rw [if_neg h]
    simpa using h

/-- C6, counterexample: the top plane written by `extract_from_camera` is
`Plane(0, -1, 0, 10)`, whose signed distance at the point (0, 11, 0) is
-1 < 0: the top-plane test reports the point invisible (the other four
planes of this frustum pass the point with distance 0, and the bottom plane
passes it, so `is_point_visible = false` is caused by the top plane alone).
The planes are therefore not always-pass. -/
theorem c6_counterexample :
    frustumTB.ExtractedFromCamera ∧
    frustumTB.top.distance_to_point 0 11 0 < 0 ∧
    frustumTB.is_point_visible 0 11 0 = false ∧
    0 ≤ frustumTB.near.distance_to_point 0 11 0 ∧
    0 ≤ frustumTB.far.distance_to_point 0 11 0 ∧
    0 ≤ frustumTB.left.distance_to_point 0 11 0 ∧
    0 ≤ frustumTB.right.distance_to_point 0 11 0 ∧
    0 ≤ frustumTB.bottom.distance_to_point 0 11 0 := by
  refine ⟨⟨rfl, rfl, rfl⟩, ?_, ?_, ?_, ?_, ?_, ?_, ?_⟩ <;>
    with_unfolding_all decide

/-- C6 (amended): after `extract_from_camera`, the top and bottom planes
pass every point whose `y` lies in [-10, 10] (the comments in the source:
everything below `y = 10` and above `y = -10`): their signed distances are
non-negative there, they also pass every sphere test with non-negative
radius there, and `is_point_visible` on such points is decided by the other
four planes alone.  Outside that band the planes can reject (see the
counterexample), so they are degenerate passes only for the scene's
vertical extent, not for every point. -/
theorem c6_top_bottom_pass_band (f : ViewFrustum)
    (hf : f.ExtractedFromCamera) (x y z : ℚ) (hy1 : -10 ≤ y)
    (hy2 : y ≤ 10) :
    0 ≤ f.top.distance_to_point x y z ∧
    0 ≤ f.bottom.distance_to_point x y z ∧
    (∀ r : ℚ, 0 ≤ r → -r ≤ f.top.distance_to_point x y z ∧
      -r ≤ f.bottom.distance_to_point x y z) ∧
    f.is_point_visible x y z =
      (decide (0 ≤ f.near.distance_to_point x y z) &&
       decide (0 ≤ f.far.distance_to_point x y z) &&
       decide (0 ≤ f.left.distance_to_point x y z) &&
       decide (0 ≤ f.right.distance_to_point x y z)) := by
  obtain ⟨ht, hb, he⟩ := hf
  have htd : f.top.distance_to_point x y z = 10 - y := by
    rw [ht]
    simp only [Plane.distance_to_point]
    ring
  have hbd : f.bottom.distance_to_point x y z = y + 10 := by
    rw [hb]
    simp only [Plane.distance_to_point]
    ring
  have h1 : (0 : ℚ) ≤ f.top.distance_to_point x y z := by
    rw [htd]; linarith
  have h2 : (0 : ℚ) ≤ f.bottom.distance_to_point x y z := by
    rw [hbd]; linarith
  refine ⟨h1, h2, fun r hr => ⟨by linarith, by linarith⟩, ?_⟩
  simp [ViewFrustum.is_point_visible, he, h1, h2]

/-- Witness for C6 (amended) at the concrete frustum and the point
(1, 2, 3). -/
theorem c6_witness :
    frustumTB.ExtractedFromCamera ∧ (-10 : ℚ) ≤ 2 ∧ (2 : ℚ) ≤ 10 ∧
    (0 ≤ frustumTB.top.distance_to_point 1 2 3 ∧
     0 ≤ frustumTB.bottom.distance_to_point 1 2 3 ∧
     (∀ r : ℚ, 0 ≤ r → -r ≤ frustumTB.top.distance_to_point 1 2 3 ∧
       -r ≤ frustumTB.bottom.distance_to_point 1 2 3) ∧
     frustumTB.is_point_visible 1 2 3 =
       (decide (0 ≤ frustumTB.near.distance_to_point 1 2 3) &&
        decide (0 ≤ frustumTB.far.distance_to_point 1 2 3) &&
        decide (0 ≤ frustumTB.left.distance_to_point 1 2 3) &&
        decide (0 ≤ frustumTB.right.distance_to_point 1 2 3))) :=
  ⟨⟨rfl, rfl, rfl⟩, by norm_num, by norm_num,
    c6_top_bottom_pass_band frustumTB ⟨rfl, rfl, rfl⟩ 1 2 3 (by norm_num)
      (by norm_num)⟩

/-- A hit of the reverse scan is a member whose threshold is met. -/
theorem findFirstGE_mem {d : ℚ} :
    ∀ {ls : List LODLevel} {l : LODLevel}, findFirstGE ls d = some l →
      l ∈ ls ∧ l.distance_threshold ≤ d := by
  intro ls
  induction ls with
  | nil =>
    intro l h
    simp [findFirstGE] at h
  | cons a rest ih =>
    intro l h
    simp only [findFirstGE] at h
    by_cases ha : a.distance_threshold ≤ d
    · rw [if_pos ha] at h
      obtain rfl := Option.some.inj h
      exact ⟨List.mem_cons_self a rest, ha⟩
    · rw [if_neg ha] at h
      obtain ⟨h1, h2⟩ := ih h
      exact ⟨List.mem_cons_of_mem a h1, h2⟩

/-- The reverse scan misses exactly when no threshold is met. -/
theorem findFirstGE_none {d : ℚ} :
    ∀ {ls : List LODLevel}, findFirstGE ls d = none ↔
      ∀ l ∈ ls, d < l.distance_threshold := by
  intro ls
  induction ls with
  | nil => simp [findFirstGE]
  | cons a rest ih =>
    simp only [findFirstGE]
    by_cases ha : a.distance_threshold ≤ d
    · rw [if_pos ha]
      simp only [List.mem_cons]
      constructor
      · intro h; exact absurd h (by simp)
      · intro h; exact absurd (h a (Or.inl rfl)) (not_lt.mpr ha)
    · rw [if_neg ha]
      rw [ih]
      constructor
      · intro h l hl
        rcases List.mem_cons.mp hl with rfl | hl
        · exact not_le.mp ha
        · exact h l hl
      · intro h l hl
        exact h l (List.mem_cons_of_mem a hl)

/-- On a list whose thresholds are descending (the reversed ascending list),
the first hit of the reverse scan has the greatest threshold among all met
thresholds. -/
theorem findFirstGE_greatest {d : ℚ} :
    ∀ {ls : List LODLevel} {l : LODLevel},
      List.Pairwise
        (fun a b => b.distance_threshold ≤ a.distance_threshold) ls →
      findFirstGE ls d = some l →
      ∀ l' ∈ ls, l'.distance_threshold ≤ d →
        l'.distance_threshold ≤ l.distance_threshold := by
  intro ls
  induction ls with
  | nil =>
    intro l _ h
    simp [findFirstGE] at h
  | cons a rest ih =>
    intro l hp h l' hl' hl'd
    simp only [findFirstGE] at h
    obtain ⟨hhead, htail⟩ := List.pairwise_cons.mp hp
    by_cases ha : a.distance_threshold ≤ d
    · rw [if_pos ha] at h
      obtain rfl := Option.some.inj h
      rcases List.mem_cons.mp hl' with rfl | hl'
      · exact le_refl _
      · exact hhead l' hl'
    · rw [if_neg ha] at h
      rcases List.mem_cons.mp hl' with rfl | hl'
      · exact absurd hl'd ha
      · exact ih htail h l' hl' hl'd

/-- The element right after the maximal true prefix fails the predicate. -/
theorem takeWhile_next_false (p : ℚ → Bool) :
    ∀ (l : List ℚ), (l.takeWhile p).length < l.length →
      p (l.getD (l.takeWhile p).length 0) = false := by
  intro l
  induction l with
  | nil =>
    intro h
    simp at h
  | cons a rest ih =>
    intro h
    cases hpa : p a
    · rw [List.takeWhile_cons_of_neg (by simp [hpa])]
      simpa using hpa
    · rw [List.takeWhile_cons_of_pos hpa] at h ⊢
      simp only [List.length_cons, List.getD_cons_succ]
      exact ih (by simpa using h)

/-- Every index below the true-prefix length satisfies the predicate. -/
theorem takeWhile_getD_true (p : ℚ → Bool) :
    ∀ (l : List ℚ) (j : Nat), j < (l.takeWhile p).length →
      p (l.getD j 0) = true := by
  intro l
  induction l with
  | nil =>
    intro j h
    simp at h
  | cons a rest ih =>
    intro j h
    cases hpa : p a
    · rw [List.takeWhile_cons_of_neg (by simp [hpa])] at h
      simp at h
    · rw [List.takeWhile_cons_of_pos hpa] at h
      cases j with
      | zero => simpa using hpa
      | succ j =>
        simp only [List.getD_cons_succ]
        exact ih j (by simpa using h)

/-- The reverse linear scan of `LODManager.get_lod_for_distance` picks the
tier with the greatest threshold `≤ d` (and the first tier when no
threshold is met), on every nonempty level list sorted ascending by
threshold. -/
theorem lodManager_scan_greatest (ls : List LODLevel) (d : ℚ)
    (hne : ls ≠ [])
    (hsorted : List.Pairwise
      (fun a b => a.distance_threshold ≤ b.distance_threshold) ls) :
    ((∃ l ∈ ls, l.distance_threshold ≤ d) →
      ((LODManager.mk ls).get_lod_for_distance d ∈ ls ∧
       ((LODManager.mk ls).get_lod_for_distance d).distance_threshold ≤ d ∧
       ∀ l' ∈ ls, l'.distance_threshold ≤ d →
         l'.distance_threshold ≤
           ((LODManager.mk ls).get_lod_for_distance
             d).distance_threshold)) ∧
    ((∀ l ∈ ls, d < l.distance_threshold) →
      ls.head? = some ((LODManager.mk ls).get_lod_for_distance d)) := by
  cases hfind : findFirstGE ls.reverse d with
  | some l =>
    have hval : (LODManager.mk ls).get_lod_for_distance d = l := by
      simp only [LODManager.get_lod_for_distance]
      rw [hfind]
    obtain ⟨hmem, hle⟩ := findFirstGE_mem hfind
    constructor
    · intro _
      rw [hval]
      refine ⟨List.mem_reverse.mp hmem, hle, ?_⟩
      intro l' hl' hl'd
      refine findFirstGE_greatest ?_ hfind l' (List.mem_reverse.mpr hl')
        hl'd
      exact List.pairwise_reverse.mpr hsorted
    · intro hall
      exact absurd hle (not_le.mpr (hall l (List.mem_reverse.mp hmem)))
  | none =>
    have hval : (LODManager.mk ls).get_lod_for_distance d =
        ls.getD 0 ⟨"LOD0", 1, 0⟩ := by
      simp only [LODManager.get_lod_for_distance]
      rw [hfind]
    constructor
    · intro ⟨lw, hlw, hlwd⟩
      have := findFirstGE_none.mp hfind lw (List.mem_reverse.mpr hlw)
      exact absurd hlwd (not_le.mpr this)
    · intro _
      rw [hval]
      cases ls with
      | nil => exact absurd rfl hne
      | cons l0 rest => rfl

/-- The `bisect_right`-based selection of
`AggressiveLODManager.get_lod_for_distance` picks the tier with the
greatest threshold `≤ d` (and the first tier when no threshold is met), on
every nonempty level list sorted ascending by threshold, for every mode
string. -/
theorem aggressiveManager_bisect_greatest (mode : String)
    (ls : List AggressiveLODLevel) (d : ℚ) (hne : ls ≠ [])
    (hsorted : List.Pairwise
      (fun a b => a.distance_threshold ≤ b.distance_threshold) ls) :
    ((∃ l ∈ ls, l.distance_threshold ≤ d) →
      ((AggressiveLODManager.mk mode ls).get_lod_for_distance d ∈ ls ∧
       ((AggressiveLODManager.mk mode
          ls).get_lod_for_distance d).distance_threshold ≤ d ∧
       ∀ l' ∈ ls, l'.distance_threshold ≤ d →
         l'.distance_threshold ≤
           ((AggressiveLODManager.mk mode ls).get_lod_for_distance
             d).distance_threshold)) ∧
    ((∀ l ∈ ls, d < l.distance_threshold) →
      ls.head? = some
        ((AggressiveLODManager.mk mode ls).get_lod_for_distance d)) := by
  have hsortidx : ∀ (i j : Nat) (h1 : i < ls.length) (h2 : j < ls.length),
      i ≤ j → (ls.get ⟨i, h1⟩).distance_threshold ≤
        (ls.get ⟨j, h2⟩).distance_threshold := by
    intro i j h1 h2 hij
    rcases Nat.eq_or_lt_of_le hij with rfl | hlt
    · exact le_refl _
    · have := List.pairwise_iff_getElem.mp hsorted i j h1 h2 hlt
      simpa using this
  have hlenmap : (ls.map (fun l => l.distance_threshold)).length =
      ls.length := List.length_map _ _
  have hgetmap : ∀ (j : Nat) (hj : j < ls.length),
      (ls.map (fun l => l.distance_threshold)).getD j 0 =
        (ls.get ⟨j, hj⟩).distance_threshold := by
    intro j hj
    rw [List.getD_eq_getElem _ _ (by simp only [List.length_map]; omega)]
    simp
  have hilen : bisect_right (ls.map (fun l => l.distance_threshold)) d ≤
      ls.length := by
    have := (List.takeWhile_prefix
      (l := ls.map (fun l => l.distance_threshold))
      (fun v => decide (v ≤ d))).length_le
    simpa [bisect_right, hlenmap] using this
  constructor
  · intro ⟨lw, hlw, hlwd⟩
    obtain ⟨jw, hjw, hljw⟩ := List.mem_iff_getElem.mp hlw
    have hi1 : 1 ≤ bisect_right (ls.map (fun l => l.distance_threshold))
        d := by
      by_contra h0
      have hi0 : bisect_right (ls.map (fun l => l.distance_threshold)) d =
          0 := by omega
      have hlt : (((ls.map (fun l => l.distance_threshold)).takeWhile
          (fun v => decide (v ≤ d))).length <
          (ls.map (fun l => l.distance_threshold)).length) := by
        have : 0 < ls.length := by
          cases ls
          · exact absurd rfl hne
          · simp
        simp only [bisect_right] at hi0
        omega
      have hfail := takeWhile_next_false (fun v => decide (v ≤ d))
        (ls.map (fun l => l.distance_threshold)) hlt
      simp only [bisect_right] at hi0
      rw [hi0] at hfail
      rw [hgetmap 0 (by omega)] at hfail
      simp only [decide_eq_false_iff_not, not_le] at hfail
      have hmono := hsortidx 0 jw (by omega) hjw (by omega)
      rw [← List.get_eq_getElem ls ⟨jw, hjw⟩] at hljw
      rw [hljw] at hmono
      exact absurd (le_trans hmono hlwd) (by
        simpa using not_le.mpr hfail)
    set i := bisect_right (ls.map (fun l => l.distance_threshold)) d
      with hidef
    have hidx : i - 1 < ls.length := by omega
    have hval : (AggressiveLODManager.mk mode
        ls).get_lod_for_distance d = ls.get ⟨i - 1, hidx⟩ := by
      simp only [AggressiveLODManager.get_lod_for_distance]
      rw [← hidef, List.getD_eq_getElem _ _ hidx]
      simp
    have hth : (ls.get ⟨i - 1, hidx⟩).distance_threshold ≤ d := by
      have := takeWhile_getD_true (fun v => decide (v ≤ d))
        (ls.map (fun l => l.distance_threshold)) (i - 1)
        (by simp only [bisect_right] at hidef; omega)
      rw [hgetmap (i - 1) hidx] at this
      simpa using this
    rw [hval]
    refine ⟨by simp [List.get_mem], hth, ?_⟩
    intro l' hl' hl'd
    obtain ⟨j, hj, hlj⟩ := List.mem_iff_getElem.mp hl'
    rw [← List.get_eq_getElem ls ⟨j, hj⟩] at hlj
    rcases le_or_lt j (i - 1) with hji | hji
    · have := hsortidx j (i - 1) hj hidx hji
      rw [hlj] at this
      exact this
    · exfalso
      have hiok : i < ls.length := by omega
      have hfail := takeWhile_next_false (fun v => decide (v ≤ d))
        (ls.map (fun l => l.distance_threshold))
        (by simp only [bisect_right] at hidef; omega)
      have hieq : ((ls.map (fun l => l.distance_threshold)).takeWhile
          (fun v => decide (v ≤ d))).length = i := by
        simp only [bisect_right] at hidef
        omega
      rw [hieq, hgetmap i hiok] at hfail
      simp only [decide_eq_false_iff_not, not_le] at hfail
      have hmono := hsortidx i j hiok hj (by omega)
      rw [hlj] at hmono
      exact absurd (le_trans hmono hl'd) (not_le.mpr hfail)
  · intro hall
    cases ls with
    | nil => exact absurd rfl hne
    | cons l0 rest =>
      have h0 : (fun v => decide (v ≤ d)) l0.distance_threshold = false := by
        simp only [decide_eq_false_iff_not, not_le]
        exact hall l0 (List.mem_cons_self l0 rest)
      have hval : (AggressiveLODManager.mk mode
          (l0 :: rest)).get_lod_for_distance d = l0 := by
        simp only [AggressiveLODManager.get_lod_for_distance, bisect_right,
          List.map_cons]
        rw [List.takeWhile_cons_of_neg (by simp [h0])]
        rfl
      rw [hval]
      rfl

/-- C5: for both LOD manager implementations — the reverse linear scan of
`LODManager` and the binary-search (`bisect_right`) selection of
`AggressiveLODManager` (which hosts the standard, aggressive and extreme
configurations) — on any nonempty level list sorted ascending by threshold
and any distance `d ≥ 0`, `get_lod_for_distance(d)` returns the tier whose
`distance_threshold` is the greatest threshold `≤ d`; when `d` is below
every threshold, the first (lowest-threshold) tier is returned. -/
theorem c5_get_lod_greatest_threshold (lsS : List LODLevel)
    (mode : String) (lsA : List AggressiveLODLevel) (d : ℚ)
    (hneS : lsS ≠ [])
    (hsortS : List.Pairwise
      (fun a b => a.distance_threshold ≤ b.distance_threshold) lsS)
    (hneA : lsA ≠ [])
    (hsortA : List.Pairwise
      (fun a b => a.distance_threshold ≤ b.distance_threshold) lsA)
    (_hd : 0 ≤ d) :
    (((∃ l ∈ lsS, l.distance_threshold ≤ d) →
       ((LODManager.mk lsS).get_lod_for_distance d ∈ lsS ∧
        ((LODManager.mk lsS).get_lod_for_distance d).distance_threshold ≤
          d ∧
        ∀ l' ∈ lsS, l'.distance_threshold ≤ d →
          l'.distance_threshold ≤
            ((LODManager.mk lsS).get_lod_for_distance
              d).distance_threshold)) ∧
     ((∀ l ∈ lsS, d < l.distance_threshold) →
       lsS.head? = some ((LODManager.mk lsS).get_lod_for_distance d))) ∧
    (((∃ l ∈ lsA, l.distance_threshold ≤ d) →
       ((AggressiveLODManager.mk mode lsA).get_lod_for_distance d ∈ lsA ∧
        ((AggressiveLODManager.mk mode
           lsA).get_lod_for_distance d).distance_threshold ≤ d ∧
        ∀ l' ∈ lsA, l'.distance_threshold ≤ d →
          l'.distance_threshold ≤
            ((AggressiveLODManager.mk mode lsA).get_lod_for_distance
              d).distance_threshold)) ∧
     ((∀ l ∈ lsA, d < l.distance_threshold) →
       lsA.head? = some
         ((AggressiveLODManager.mk mode
           lsA).get_lod_for_distance d))) :=
  ⟨lodManager_scan_greatest lsS d hneS hsortS,
   aggressiveManager_bisect_greatest mode lsA d hneA hsortA⟩

/-- Witness for C5: the default 3-tier configuration and the aggressive
5-tier configuration at distance 1/2: the standard manager must return the
LOD1 tier (threshold 3/10) and the aggressive manager the LOD2 tier
(threshold 35/100). -/
theorem c5_witness :
    (LODManager.DEFAULT_LODS ≠ [] ∧
     List.Pairwise (fun a b => a.distance_threshold ≤ b.distance_threshold)
       LODManager.DEFAULT_LODS ∧
     AggressiveLODManager.AGGRESSIVE_LODS ≠ [] ∧
     List.Pairwise (fun a b => a.distance_threshold ≤ b.distance_threshold)
       AggressiveLODManager.AGGRESSIVE_LODS ∧
     (0 : ℚ) ≤ 1/2) ∧
    ((∃ l ∈ LODManager.DEFAULT_LODS, l.distance_threshold ≤ 1/2) →
      ((LODManager.mk LODManager.DEFAULT_LODS).get_lod_for_distance (1/2) ∈
        LODManager.DEFAULT_LODS ∧
       ((LODManager.mk
          LODManager.DEFAULT_LODS).get_lod_for_distance
            (1/2)).distance_threshold ≤ 1/2 ∧
       ∀ l' ∈ LODManager.DEFAULT_LODS, l'.distance_threshold ≤ 1/2 →
         l'.distance_threshold ≤
           ((LODManager.mk
             LODManager.DEFAULT_LODS).get_lod_for_distance
               (1/2)).distance_threshold)) ∧
    ((∃ l ∈ AggressiveLODManager.AGGRESSIVE_LODS,
        l.distance_threshold ≤ 1/2) →
      ((AggressiveLODManager.mk "aggressive"
          AggressiveLODManager.AGGRESSIVE_LODS).get_lod_for_distance
            (1/2) ∈ AggressiveLODManager.AGGRESSIVE_LODS ∧
       ((AggressiveLODManager.mk "aggressive"
          AggressiveLODManager.AGGRESSIVE_LODS).get_lod_for_distance
            (1/2)).distance_threshold ≤ 1/2 ∧
       ∀ l' ∈ AggressiveLODManager.AGGRESSIVE_LODS,
         l'.distance_threshold ≤ 1/2 →
         l'.distance_threshold ≤
           ((AggressiveLODManager.mk "aggressive"
             AggressiveLODManager.AGGRESSIVE_LODS).get_lod_for_distance
               (1/2)).distance_threshold)) := by
  have h1 : LODManager.DEFAULT_LODS ≠ [] := by
    with_unfolding_all decide
  have h2 : List.Pairwise
      (fun a b => a.distance_threshold ≤ b.distance_threshold)
      LODManager.DEFAULT_LODS := by
    with_unfolding_all decide
  have h3 : AggressiveLODManager.AGGRESSIVE_LODS ≠ [] := by
    with_unfolding_all decide
  have h4 : List.Pairwise
      (fun a b => a.distance_threshold ≤ b.distance_threshold)
      AggressiveLODManager.AGGRESSIVE_LODS := by
    with_unfolding_all decide
  have h5 : (0 : ℚ) ≤ 1/2 := by norm_num
  obtain ⟨⟨hS1, _⟩, ⟨hA1, _⟩⟩ := c5_get_lod_greatest_threshold
    LODManager.DEFAULT_LODS "aggressive"
    AggressiveLODManager.AGGRESSIVE_LODS (1/2) h1 h2 h3 h4 h5
  exact ⟨⟨h1, h2, h3, h4, h5⟩, hS1, hA1⟩

end Windkraft
